import Mathlib

/-!
Verification of the ESLint configuration-resolution core: a shallow embedding
of `lib/config.js`, `lib/config/config-cache.js` and `lib/config/config-ops.js`
(the hierarchy resolver, the deep-merge algebra and the multi-level cache),
together with theorems settling the frozen claims about it.

JavaScript values are embedded as the inductive type `JSVal`.  Objects are
association lists in insertion order (mirroring `Object.keys` iteration
order); `undef` is the JavaScript value `undefined`, which is distinct from a
key being absent only in that `"k" in obj` differs — both read back as
`undefined` via property access, which is what `propGet` models.
External collaborators (file discovery, config-file loading, the environment
registry, the glob matcher) are injected as parameters, as §6 of the design
treats them.
-/

/-- Embedded JavaScript value: undefined, null, booleans, (integer) numbers,
strings, arrays and objects.  Objects keep their key insertion order.
`jhost tf name` is an opaque host value reached only through the prototype
chain of a plain object — in this program, `Object.prototype.constructor`
(the `Object` function, `jhost "function" "Object"`) and `Object.prototype`
itself (`jhost "object" "Object.prototype"`), read by `RULE_SEVERITY[key]`
when the lowercased key is `"constructor"` or `"__proto__"`; `tf` is the
value's JavaScript `typeof` string.  A host value is truthy, is not an
array, and is neither a number nor a string. -/
inductive JSVal where
  | undef : JSVal
  | jnull : JSVal
  | jbool : Bool → JSVal
  | jnum : Int → JSVal
  | jstr : String → JSVal
  | jarr : List JSVal → JSVal
  | jobj : List (String × JSVal) → JSVal
  | jhost : String → String → JSVal
deriving Repr

namespace JSVal

mutual

/-- Structural (value) equality on embedded JS values.  It models `===` at
primitive types exactly; on arrays and objects JavaScript `===` is reference
equality, but the only place the embedded code compares values
(`dst.indexOf(e)` in the `combine` branch of `merge`, used for the `plugins`
list) compares plugin *names*, i.e. strings, where `===` is value equality. -/
def beq : JSVal → JSVal → Bool
  | undef, undef => true
  | jnull, jnull => true
  | jbool a, jbool b => a == b
  | jnum a, jnum b => a == b
  | jstr a, jstr b => a == b
  | jarr xs, jarr ys => beqList xs ys
  | jobj xs, jobj ys => beqObj xs ys
  | jhost a b, jhost c d => a == c && b == d
  | _, _ => false

/-- Elementwise equality of embedded JS arrays. -/
def beqList : List JSVal → List JSVal → Bool
  | [], [] => true
  | x :: xs, y :: ys => beq x y && beqList xs ys
  | _, _ => false

/-- Entrywise equality of embedded JS objects (same keys in the same order). -/
def beqObj : List (String × JSVal) → List (String × JSVal) → Bool
  | [], [] => true
  | (k, v) :: xs, (l, w) :: ys => k == l && beq v w && beqObj xs ys
  | _, _ => false

end

instance : BEq JSVal := ⟨beq⟩

/-- JavaScript truthiness: `undefined`, `null`, `false`, `0` and `""` are
falsy; every other value (including `{}` and `[]`) is truthy. -/
def truthy : JSVal → Bool
  | undef => false
  | jnull => false
  | jbool b => b
  | jnum n => n != 0
  | jstr s => s != ""
  | _ => true

/-- Whether `typeof v === "object"` holds: true for `null`, arrays, objects
and host values whose `typeof` tag is `"object"` (a host function's `typeof`
is `"function"`). -/
def typeofObject : JSVal → Bool
  | jnull => true
  | jarr _ => true
  | jobj _ => true
  | jhost tf _ => tf == "object"
  | _ => false

/-- Whether `Array.isArray(v)` holds. -/
def isArr : JSVal → Bool
  | jarr _ => true
  | _ => false

end JSVal

open JSVal

/-- First-match lookup in an association list, as a JavaScript object's (or
`Map`'s) key lookup. -/
def alookup {α : Type} : List (String × α) → String → Option α
  | [], _ => none
  | (k, v) :: rest, key => if k = key then some v else alookup rest key

/-- Key update in an association list: overwrite the first binding of the key
in place if present, else append — JavaScript assignment `obj[key] = v`
(and `Map.set`) keeps the original key position for existing keys and appends
new keys last. -/
def aset {α : Type} : List (String × α) → String → α → List (String × α)
  | [], key, v => [(key, v)]
  | (k, w) :: rest, key, v =>
      if k = key then (k, v) :: rest else (k, w) :: aset rest key v

/-- Decimal parse of a property-key string (used where JavaScript treats a
string key as an array index).  Defined over the character list so that it
reduces in the kernel, unlike `String.toNat?`. -/
def strToNat? (s : String) : Option Nat :=
  if s.data ≠ [] ∧ s.data.all (fun c => 48 ≤ c.toNat ∧ c.toNat ≤ 57) then
    some (s.data.foldl (fun n c => n * 10 + (c.toNat - 48)) 0)
  else none

namespace JSVal

/-- Property read `v[k]`: `undefined` when absent or when `v` is not an
object.  Numeric-string keys index arrays; character indexing of strings is
also modelled.  (Property access on `undefined`/`null` throws a `TypeError`
in JavaScript; the resolver never performs such an access along the paths
exercised here, and the model returns `undefined` there.) -/
def propGet : JSVal → String → JSVal
  | jobj kvs, k => (alookup kvs k).getD undef
  | jarr xs, k =>
      match strToNat? k with
      | some i => xs.getD i undef
      | none => undef
  | jstr s, k =>
      match strToNat? k with
      | some i =>
          if h : i < s.length then jstr (String.mk [s.toList.get ⟨i, by simpa using h⟩])
          else undef
      | none => undef
  | _, _ => undef

/-- Indexed read `v[i]` with a number index (arrays; numeric keys of objects;
characters of strings). -/
def idxGet (v : JSVal) (i : Nat) : JSVal :=
  match v with
  | jarr xs => xs.getD i undef
  | jobj kvs => (alookup kvs (toString i)).getD undef
  | jstr s => if h : i < s.length then jstr (String.mk [s.toList.get ⟨i, by simpa using h⟩]) else undef
  | _ => undef

/-- Property write `v[k] := x` (no-op on non-objects, where JavaScript would
either throw or silently drop the write). -/
def propSet (v : JSVal) (k : String) (x : JSVal) : JSVal :=
  match v with
  | jobj kvs => jobj (aset kvs k x)
  | _ => v

/-- Property removal `delete v[k]`. -/
def propDel (v : JSVal) (k : String) : JSVal :=
  match v with
  | jobj kvs => jobj (kvs.filter (fun kv => kv.1 ≠ k))
  | _ => v

/-- Whether the object has the key at all (distinguishes an absent key from a
key explicitly bound to `undefined`). -/
def hasKey (v : JSVal) (k : String) : Bool :=
  match v with
  | jobj kvs => (alookup kvs k).isSome
  | _ => false

/-- The list `Object.keys(v)`: key names of an object, index strings of an
array.  (`Object.keys` of `null`/`undefined` throws in JavaScript and of a
primitive returns its index keys; those corners are unreachable from the
resolver and yield `[]` here.) -/
def objKeys : JSVal → List String
  | jobj kvs => kvs.map Prod.fst
  | jarr xs => (List.range xs.length).map toString
  | _ => []

/-- The entry list of an object (`[]` for non-objects). -/
def objEntries : JSVal → List (String × JSVal)
  | jobj kvs => kvs
  | _ => []

/-- The element list of an array (`[]` for non-arrays). -/
def arrElems : JSVal → List JSVal
  | jarr xs => xs
  | _ => []

/-- `Object.assign(target, src)` restricted to object sources: shallow
last-write-wins copy of every own key of `src` onto `target`. -/
def objAssign (target src : JSVal) : JSVal :=
  (objEntries src).foldl (fun acc kv => acc.propSet kv.1 kv.2) target

/-- The string a value contributes when used where a string is expected
(config file paths, base directories, glob patterns); non-strings are not
produced there by the resolver. -/
def asStr : JSVal → String
  | jstr s => s
  | _ => ""

end JSVal

mutual

/-- Executable structural size of a JS value (the derived `sizeOf` of a
nested inductive has no executable code); used only to pick a sufficient
recursion fuel for `merge`. -/
def jsize : JSVal → Nat
  | JSVal.jarr xs => jsizeList xs + 1
  | JSVal.jobj kvs => jsizeObj kvs + 1
  | _ => 1

/-- Total size of the elements of an embedded array. -/
def jsizeList : List JSVal → Nat
  | [] => 0
  | x :: xs => jsize x + jsizeList xs + 1

/-- Total size of the values of an embedded object. -/
def jsizeObj : List (String × JSVal) → Nat
  | [] => 0
  | (_, v) :: kvs => jsize v + jsizeObj kvs + 1

end

/-- One character of `String.prototype.toLowerCase` restricted to ASCII (the
severity keywords are ASCII; the library function's Unicode behavior is not
exercised).  Defined over the character list so that it reduces in the
kernel, unlike `String.toLower`. -/
def lowerChar (c : Char) : Char :=
  if 65 ≤ c.toNat ∧ c.toNat ≤ 90 then Char.ofNat (c.toNat + 32) else c

/-- `s.toLowerCase()` (ASCII). -/
def jsToLower (s : String) : String :=
  String.mk (s.data.map lowerChar)

/-- A config-vector token: a config file path (the base config's path is
`""`), or the index of an override block of the most recent path token. -/
inductive VecTok where
  | vstr : String → VecTok
  | vnum : Nat → VecTok
deriving Repr, DecidableEq

/-- Whether the token is a path (string) token — `typeof token === "string"`
in the source. -/
def VecTok.isStr : VecTok → Bool
  | vstr _ => true
  | vnum _ => false

/-- The string a token contributes to `Array.prototype.join` (numbers are
stringified). -/
def VecTok.joinStr : VecTok → String
  | vstr s => s
  | vnum n => toString n

/-- `hash(vector)` from config-cache.js: the tokens joined with `","`.
The constructor also calls the vector-keyed setters with the base config's
`filePath` (the plain string `""`), which is falsy and hashes to `""` in the
source — the same key the one-token vector `[""]` hashes to; the model keys
that constructor write by `hash [vstr ""]`. -/
def hashVector (vector : List VecTok) : String :=
  String.intercalate "," (vector.map VecTok.joinStr)

/-- The four cache tables of config-cache.js (`ConfigCache`), each modelled
as an insertion-ordered association list standing for a `Map`. -/
structure ConfigCache where
  filePathCache : List (String × JSVal)
  localHierarchyCache : List (String × List JSVal)
  mergedVectorCache : List (String × JSVal)
  mergedCache : List (String × JSVal)
deriving Repr

namespace ConfigCache

/-- `init()`: four fresh empty tables. -/
def init : ConfigCache := ⟨[], [], [], []⟩

/-- `getConfig(filePath)`: shallow config-by-path lookup (`undefined` modelled
as `none`). -/
def getConfig (c : ConfigCache) (filePath : String) : Option JSVal :=
  alookup c.filePathCache filePath

/-- `setConfig(filePath, config)`. -/
def setConfig (c : ConfigCache) (filePath : String) (config : JSVal) : ConfigCache :=
  { c with filePathCache := aset c.filePathCache filePath config }

/-- `getHierarchyLocalConfigs(directory)`. -/
def getHierarchyLocalConfigs (c : ConfigCache) (directory : String) : Option (List JSVal) :=
  alookup c.localHierarchyCache directory

/-- `Array.prototype.slice(0, e)` with a possibly negative end index. -/
def jsSliceTo {α : Type} (xs : List α) (e : Int) : List α :=
  xs.take (if e < 0 then ((xs.length : Int) + e).toNat else e.toNat)

/-- `setHierarchyLocalConfigs(parentDirectories, parentConfigs)`: directory
`i` (0 = nearest) is mapped to `parentConfigs.slice(0, parentConfigs.length - i)`. -/
def setHierarchyLocalConfigs (c : ConfigCache) (parentDirectories : List String)
    (parentConfigs : List JSVal) : ConfigCache :=
  { c with localHierarchyCache :=
      (parentDirectories.enum.foldl
        (fun acc p =>
          aset acc p.2 (jsSliceTo parentConfigs ((parentConfigs.length : Int) - (p.1 : Int))))
        c.localHierarchyCache) }

/-- `getMergedVectorConfig(vector)`. -/
def getMergedVectorConfig (c : ConfigCache) (vector : List VecTok) : Option JSVal :=
  alookup c.mergedVectorCache (hashVector vector)

/-- `setMergedVectorConfig(vector, config)`. -/
def setMergedVectorConfig (c : ConfigCache) (vector : List VecTok) (config : JSVal) : ConfigCache :=
  { c with mergedVectorCache := aset c.mergedVectorCache (hashVector vector) config }

/-- `getMergedConfig(vector)`. -/
def getMergedConfig (c : ConfigCache) (vector : List VecTok) : Option JSVal :=
  alookup c.mergedCache (hashVector vector)

/-- `setMergedConfig(vector, config)`. -/
def setMergedConfig (c : ConfigCache) (vector : List VecTok) (config : JSVal) : ConfigCache :=
  { c with mergedCache := aset c.mergedCache (hashVector vector) config }

end ConfigCache

namespace ConfigOps

/-- The element list `[].concat(v)` starts from: an array is spliced in, any
other value becomes a single element. -/
def jsToElems : JSVal → List JSVal
  | jarr xs => xs
  | v => [v]

/-- `v || []`. -/
def orEmptyArr (v : JSVal) : JSVal := if v.truthy then v else jarr []

/-- Whether a value is literally `undefined` (`typeof v === "undefined"`). -/
def jsUndef : JSVal → Bool
  | JSVal.undef => true
  | _ => false

/-- Array element write `dst[i] = e`.  In the merge loop `i` never exceeds the
current length by more than the append position, but the model follows
JavaScript and pads any gap with `undefined`. -/
def arrWrite (dst : List JSVal) (i : Nat) (e : JSVal) : List JSVal :=
  if i < dst.length then dst.set i e
  else dst ++ List.replicate (i - dst.length) JSVal.undef ++ [e]

/-- `ConfigOps.merge` (the adapted `deepmerge`), fuel-indexed so that the
definition is structurally recursive (and hence kernel-reducible).  The fuel
only bounds the recursion depth: every recursive call descends into a strict
subvalue of `src` (the wrapped-scalar case `src = [src]` never recurses, since
its single element is not of object type), so any fuel above the size of
`src` computes the function the source defines; the zero-fuel value is never
reached from `merge` below.  The `Object.keys(src).forEach((e, i) => ...)`
loop of the array branch is the fold over `List.range` (`i` runs over the key
positions of the possibly wrapped `src` and `e` is `src[i]`), and the object
branch's `forEach` is the fold over the entries of `src`. -/
def mergeFuel : Nat → JSVal → JSVal → Bool → Bool → JSVal
  | 0, _, _, _, _ => JSVal.undef
  | fuel + 1, target, src, combine, isRule =>
      let array := src.isArr || target.isArr
      if array then
        -- target = target || []
        let target1 := if target.truthy then target else jarr []
        -- dst starts from src wholesale for a multi-element rule array,
        -- else from target's elements
        let dst0 : List JSVal :=
          if isRule && src.isArr && decide (1 < (arrElems src).length) then jsToElems src
          else jsToElems target1
        -- src could be a string, so check for array: wrap a non-object
        let srcW := if !src.typeofObject && !src.isArr then jarr [src] else src
        jarr ((List.range (objKeys srcW).length).foldl
          (fun dst i =>
            let e := srcW.idxGet i
            if jsUndef (dst.getD i JSVal.undef) then arrWrite dst i e
            else if e.typeofObject then
              if isRule then arrWrite dst i e
              else arrWrite dst i (mergeFuel fuel (target1.idxGet i) e combine isRule)
            else if !combine then arrWrite dst i e
            else if dst.any (fun x => x.beq e) then dst
            else dst ++ [e])
          dst0)
      else
        let dst0 : List (String × JSVal) :=
          if target.truthy && target.typeofObject then objEntries target else []
        jobj ((objEntries src).foldl
          (fun dst kv =>
            let key := kv.1
            let v := kv.2
            let tv := target.propGet key
            if key = "overrides" then
              -- dst[key] = (target[key] || []).concat(src[key] || [])
              aset dst key (jarr (jsToElems (orEmptyArr tv) ++ jsToElems (orEmptyArr v)))
            else if v.isArr || tv.isArr then
              aset dst key (mergeFuel fuel tv v (key == "plugins") isRule)
            else if !v.typeofObject || !v.truthy || key = "exported" || key = "astGlobals" then
              aset dst key v
            else
              aset dst key
                (mergeFuel fuel (if tv.truthy then tv else jobj []) v combine (key == "rules")))
          dst0)

/-- `ConfigOps.merge(target, src, combine, isRule)`: deterministic deep merge,
`src` wins conflicts.  The fuel `jsize src + 1` strictly exceeds the nesting
depth of `src`, which bounds the recursion depth (see `mergeFuel`). -/
def merge (target src : JSVal) (combine isRule : Bool) : JSVal :=
  mergeFuel (jsize src + 1) target src combine isRule

end ConfigOps

namespace ConfigOps

/-- `RULE_SEVERITY[key]`: the severity table is the plain object
`{off: 0, warn: 1, error: 2}` built by `reduce` onto `{}`, so a missed own
key continues into the prototype chain (`Object.prototype`).  Every caller
lowercases the key first, and the only members of `Object.prototype` whose
names are entirely lowercase are `constructor` (the `Object` function,
`typeof` `"function"`) and `__proto__` (an accessor yielding
`Object.prototype` itself, `typeof` `"object"`); any other missed key reads
`undefined`. -/
def rulesSeverityLookup (key : String) : JSVal :=
  if key = "off" then jnum 0
  else if key = "warn" then jnum 1
  else if key = "error" then jnum 2
  else if key = "constructor" then jhost "function" "Object"
  else if key = "__proto__" then jhost "object" "Object.prototype"
  else undef

/-- `RULE_SEVERITY[s] || 0` on an already-lowercased string: the looked-up
value when it is truthy (`warn → 1`, `error → 2`, and the inherited
`Object.prototype` members for `constructor`/`__proto__`), otherwise `0`
(for `off`, whose table value `0` is itself falsy, and for every undefined
lookup). -/
def ruleSeverityOf (s : String) : JSVal :=
  if (rulesSeverityLookup s).truthy then rulesSeverityLookup s else jnum 0

/-- `RULE_SEVERITY_STRINGS[n] || RULE_SEVERITY_STRINGS[0]`: `0 → "off"`,
`1 → "warn"`, `2 → "error"`, any other number `→ "off"`. -/
def severityStringOf (n : Int) : String :=
  if n = 1 then "warn" else if n = 2 then "error" else "off"

/-- One rule entry of `normalize`: a string severity, or the string first
element of an array-form entry, becomes its numeric severity; other entries
are untouched. -/
def normalizeRuleEntry : JSVal → JSVal
  | jstr s => ruleSeverityOf (jsToLower s)
  | jarr (jstr s :: rest) => jarr (ruleSeverityOf (jsToLower s) :: rest)
  | v => v

/-- One rule entry of `normalizeToStrings`: a number severity, or the number
first element of an array-form entry, becomes its textual severity. -/
def stringifyRuleEntry : JSVal → JSVal
  | jnum n => jstr (severityStringOf n)
  | jarr (jnum n :: rest) => jarr (jstr (severityStringOf n) :: rest)
  | v => v

/-- Rewrite every value of the `rules` object (the per-key `forEach` loop of
`normalize`/`normalizeToStrings`); non-objects are left as they are. -/
def mapRuleValues (f : JSVal → JSVal) : JSVal → JSVal
  | jobj kvs => jobj (kvs.map (fun kv => (kv.1, f kv.2)))
  | v => v

/-- `ConfigOps.normalize(config)` (modelled as returning the updated config
rather than mutating in place): textual severities become numeric. -/
def normalize (config : JSVal) : JSVal :=
  if (config.propGet "rules").truthy then
    config.propSet "rules" (mapRuleValues normalizeRuleEntry (config.propGet "rules"))
  else config

/-- `ConfigOps.normalizeToStrings(config)`: numeric severities become
textual. -/
def normalizeToStrings (config : JSVal) : JSVal :=
  if (config.propGet "rules").truthy then
    config.propSet "rules" (mapRuleValues stringifyRuleEntry (config.propGet "rules"))
  else config

/-- `ConfigOps.isErrorSeverity(ruleConfig)`. -/
def isErrorSeverity (ruleConfig : JSVal) : Bool :=
  let severity := if ruleConfig.isArr then ruleConfig.idxGet 0 else ruleConfig
  let severity :=
    match severity with
    | jstr s => ruleSeverityOf (jsToLower s)
    | v => v
  match severity with
  | jnum n => n == 2
  | _ => false

/-- The array `VALID_SEVERITIES`. -/
def VALID_SEVERITIES : List JSVal :=
  [jnum 0, jnum 1, jnum 2, jstr "off", jstr "warn", jstr "error"]

/-- `ConfigOps.isValidSeverity(ruleConfig)`. -/
def isValidSeverity (ruleConfig : JSVal) : Bool :=
  let severity := if ruleConfig.isArr then ruleConfig.idxGet 0 else ruleConfig
  let severity :=
    match severity with
    | jstr s => jstr (jsToLower s)
    | v => v
  VALID_SEVERITIES.any (fun v => v.beq severity)

/-- `ConfigOps.isEverySeverityValid(config)` (`config` is a rules mapping). -/
def isEverySeverityValid (config : JSVal) : Bool :=
  config.objKeys.all (fun ruleId => isValidSeverity (config.propGet ruleId))

/-- `ConfigOps.createEmptyConfig()`. -/
def createEmptyConfig : JSVal :=
  jobj [("globals", jobj []), ("env", jobj []), ("rules", jobj []), ("parserOptions", jobj [])]

/-- `ConfigOps.createEnvironmentConfig(env)`.  The environment registry
(`Environments.get`, an external collaborator) is injected as `envs`; a
registered environment is an object with optional `globals` and
`parserOptions` keys, and an unknown name contributes nothing. -/
def createEnvironmentConfig (envs : String → Option JSVal) (env : JSVal) : JSVal :=
  let envConfig := createEmptyConfig
  if env.truthy then
    let envConfig := envConfig.propSet "env" env
    (env.objKeys.filter (fun name => (env.propGet name).truthy)).foldl
      (fun envConfig name =>
        match envs name with
        | some environment =>
            let envConfig :=
              if (environment.propGet "globals").truthy then
                envConfig.propSet "globals"
                  (objAssign (envConfig.propGet "globals") (environment.propGet "globals"))
              else envConfig
            if (environment.propGet "parserOptions").truthy then
              envConfig.propSet "parserOptions"
                (objAssign (envConfig.propGet "parserOptions") (environment.propGet "parserOptions"))
            else envConfig
        | none => envConfig)
      envConfig
  else envConfig

/-- `ConfigOps.applyEnvironments(config)`: when `config.env` is truthy and of
object type, merge the environment-derived config under the original
config. -/
def applyEnvironments (envs : String → Option JSVal) (config : JSVal) : JSVal :=
  if (config.propGet "env").truthy && (config.propGet "env").typeofObject then
    merge (createEnvironmentConfig envs (config.propGet "env")) config false false
  else config

/-- `ConfigOps.pathMatchesGlobs(filePath, patterns)`: `patterns` is one glob
string or an array of them (`[].concat(patterns)`), and **every** pattern must
match.  The glob primitive (`minimatch` with `matchBase: true`) is an external
collaborator injected as `minimatch`. -/
def pathMatchesGlobs (minimatch : String → String → Bool) (filePath : String)
    (patterns : JSVal) : Bool :=
  (jsToElems patterns).all (fun pattern => minimatch filePath pattern.asStr)

/-- The backward scan of `getConfigFromVector` recovering the nearest path
token at or below index `k`: `parentConfigKey = vector[k]`, then walk down
while it is not a string (ending at `vector[0]` if none is). -/
def backScanKey (vector : List VecTok) (k : Nat) : VecTok :=
  let pre := (vector.take (k + 1)).reverse
  match pre.find? (fun t => t.isStr) with
  | some t => t
  | none => pre.getLastD (VecTok.vnum 0)

/-- The cache-probe loop of `getConfigFromVector`: starting from the full
vector and dropping one trailing token per miss, return the first truthy
merged-vector cache entry together with `nearestCacheIndex` (the index of
the last token of the hit prefix).  The empty prefix is never probed. -/
def probeLoop (cache : ConfigCache) (vector : List VecTok) : Nat → Option (JSVal × Nat)
  | 0 => none
  | n + 1 =>
      match cache.getMergedVectorConfig (vector.take (n + 1)) with
      | some config => if config.truthy then some (config, n) else probeLoop cache vector n
      | none => probeLoop cache vector n

/-- The fold loop of `getConfigFromVector` over the unconsumed tokens: a path
token loads the shallow config from the by-path cache and resets the override
array, an index token picks the override block; the accumulated config is
merged, stripped of `filePath`/`baseDirectory` (when `filePath` is truthy) or
of `files` (when truthy), and written to the merged-vector cache under the
key of the **full** vector after every token. -/
def foldVector (vector : List VecTok) :
    List VecTok → JSVal → JSVal → ConfigCache → JSVal × ConfigCache
  | [], config, _, cache => (config, cache)
  | tok :: rest, config, subConfigs, cache =>
      let sc :=
        match tok with
        | VecTok.vstr s =>
            let shallowConfig := (cache.getConfig s).getD JSVal.undef
            (shallowConfig, shallowConfig.propGet "overrides")
        | VecTok.vnum k => (subConfigs.idxGet k, subConfigs)
      let config := merge config sc.1 false false
      let config :=
        if (config.propGet "filePath").truthy then
          (config.propDel "filePath").propDel "baseDirectory"
        else if (config.propGet "files").truthy then config.propDel "files"
        else config
      let cache := cache.setMergedVectorConfig vector config
      foldVector vector rest config sc.2 cache

/-- `ConfigOps.getConfigFromVector(vector)`: longest-prefix probe of the
merged-vector cache, override-array recovery when the first unconsumed token
is an index, then the fold of the remaining tokens. -/
def getConfigFromVector (cache : ConfigCache) (vector : List VecTok) : JSVal × ConfigCache :=
  match probeLoop cache vector vector.length with
  | some (config, nearestCacheIndex) =>
      if nearestCacheIndex + 1 = vector.length then (config, cache)
      else
        let subConfigs :=
          match vector.get? (nearestCacheIndex + 1) with
          | some (VecTok.vnum _) =>
              match backScanKey vector nearestCacheIndex with
              | VecTok.vstr s => ((cache.getConfig s).getD JSVal.undef).propGet "overrides"
              | VecTok.vnum _ => JSVal.undef
          | _ => JSVal.undef
        foldVector vector (vector.drop (nearestCacheIndex + 1)) config subConfigs cache
  | none => foldVector vector vector (jobj []) JSVal.undef cache

end ConfigOps

/-- The path separator. -/
def slashChar : Char := Char.ofNat 47

/-- Split a character list on `/` (kernel-reducible replacement for
`String.splitOn "/"`). -/
def splitSlash : List Char → List (List Char)
  | [] => [[]]
  | c :: rest =>
      match splitSlash rest with
      | seg :: segs => if c.toNat = 47 then [] :: seg :: segs else (c :: seg) :: segs
      | [] => [[c]]

/-- Join segments back with `/`. -/
def joinSlash : List (List Char) → List Char
  | [] => []
  | [seg] => seg
  | seg :: rest => seg ++ slashChar :: joinSlash rest

/-- `path.dirname` for the absolute slash-separated paths the resolver works
with: everything before the final separator (`"/a"` has dirname `"/"`).
Relative-path corners of the Node builtin are not exercised. -/
def dirname (p : String) : String :=
  let parts := (splitSlash p.data).dropLast
  if parts = [[]] then "/" else String.mk (joinSlash parts)

/-- Drop one trailing separator. -/
def stripTrailingSlash (cs : List Char) : List Char :=
  match cs.getLast? with
  | some c => if c.toNat = 47 then cs.dropLast else cs
  | none => cs

/-- The `path-is-inside` predicate: the path equals the potential parent or
extends it by at least one separator-delimited segment (trailing separators
stripped first). -/
def pathIsInside (thePath potentialParent : String) : Bool :=
  let p := stripTrailingSlash thePath.data
  let parent := stripTrailingSlash potentialParent.data
  p == parent || (parent ++ [slashChar]).isPrefixOf p

/-- The external collaborators of the resolver, per §6 of the design:
config-file discovery (`FileFinder.findAllInDirectoryAndParents`, candidates
nearest-first), raw config parsing (the disk side of `ConfigFile.load`),
`ConfigFile.getFilenameForDirectory`, the environment registry
(`Environments.get`), the injected glob matcher (`minimatch` with
`matchBase: true`), and the personal config directory (`userHome || null`). -/
structure External where
  findFiles : String → List String
  readConfigFile : String → Option JSVal
  filenameForDirectory : String → Option String
  environments : String → Option JSVal
  minimatch : String → String → Bool
  personalConfigDir : Option String

/-- Modelled from the spec: `ConfigFile.loadCached(filePath)` lives in
lib/config/config-file.js, which is not among the provided sources; §6
specifies the loading collaborator as "given a path, return a parsed Config
Source object or a cached previous result for the same path".  It shares the
shallow-config-by-path cache table with the resolver (`getConfigFromVector`
reads the loaded configs back through `configCache.getConfig`): a parsed
config is stored there, an empty/absent file is reported as `none` ("treated
as absent, silently skipped", §7). -/
def loadCached (ext : External) (filePath : String) (cache : ConfigCache) :
    Option JSVal × ConfigCache :=
  match cache.getConfig filePath with
  | some config => (some config, cache)
  | none =>
      match ext.readConfigFile filePath with
      | some config => (some config, cache.setConfig filePath config)
      | none => (none, cache)

/-- The two constructor options the hierarchy walk reads back: `options.rules`
and `options.baseConfig` (the raw option, whose truthiness gates the fatal
no-configuration-found error). -/
structure Options where
  rules : JSVal
  baseConfig : JSVal
deriving Repr

/-- `hasRules(options)`: rules were explicitly passed and the mapping is
non-empty. -/
def hasRules (options : Options) : Bool :=
  options.rules.truthy && decide (0 < options.rules.objKeys.length)

/-- The `"No ESLint configuration found."` error (`messageTemplate`
`"no-config-found"`) with its `messageData`. -/
structure NoConfigError where
  directory : String
  filesExamined : List String
deriving Repr

/-- The resolver (the `Config` class) as established by its constructor: the
tagged base config, the parser option, whether `.eslintrc`-style files are
consulted, the loaded CLI-specified config file (`undefined` when absent or
when the file was empty), the CLI-derived config, and the working
directory. -/
structure Config where
  options : Options
  parser : JSVal
  baseConfig : JSVal
  useEslintrc : Bool
  useSpecificConfig : Option JSVal
  cliConfig : JSVal
  cwd : String

/-- The cache state the constructor leaves behind: `init()`, then the base
config stored in the by-path table under `""` and in the merged-vector table
under the key that the base's `filePath` string `""` hashes to — the same
key as the one-token vector `[""]`. -/
def Config.initialCache (baseConfig : JSVal) : ConfigCache :=
  (ConfigCache.init.setConfig "" baseConfig).setMergedVectorConfig [VecTok.vstr ""] baseConfig

/-- `getPersonalConfig()`: the config loaded from the home directory's config
filename, if any.  (The source memoizes the result on `this.personalConfig`;
the computation is deterministic, so the memo is value-irrelevant and is not
modelled.) -/
def Config.getPersonalConfig (ext : External) (cache : ConfigCache) : Option JSVal × ConfigCache :=
  match ext.personalConfigDir with
  | some dir =>
      match ext.filenameForDirectory dir with
      | some filename => loadCached ext filename cache
      | none => (none, cache)
  | none => (none, cache)

/-- Result of the candidate walk of `getLocalConfigHierarchy`: the configs
collected nearest-first, the directories they came from, the hierarchy-cache
hit that stopped the walk (if any), and the cache as mutated by loading. -/
structure WalkResult where
  configs : List JSVal
  searched : List String
  cacheHit : Option (List JSVal)
  cache : ConfigCache
deriving Repr

/-- The `for (const localConfigFile of localConfigFiles)` walk of
`getLocalConfigHierarchy`: per candidate, first the hierarchy-cache probe
(which ends the walk on a hit), then the personal-directory skip, then the
root-boundary skip, then loading (empty files are skipped) and the
`root: true` bookkeeping. -/
def Config.walkLocalConfigFiles (ext : External) (projectConfigPath : Option String) :
    List String → Option String → List JSVal → List String → ConfigCache → WalkResult
  | [], _rootPath, configs, searched, cache => ⟨configs, searched, none, cache⟩
  | localConfigFile :: rest, rootPath, configs, searched, cache =>
      let localConfigDirectory := dirname localConfigFile
      match cache.getHierarchyLocalConfigs localConfigDirectory with
      | some hit => ⟨configs, searched, some hit, cache⟩
      | none =>
          if ext.personalConfigDir = some localConfigDirectory ∧
              projectConfigPath ≠ some localConfigFile then
            Config.walkLocalConfigFiles ext projectConfigPath rest rootPath configs searched cache
          else if (match rootPath with
                   | some rp => !pathIsInside localConfigDirectory rp
                   | none => false) then
            Config.walkLocalConfigFiles ext projectConfigPath rest rootPath configs searched cache
          else
            match loadCached ext localConfigFile cache with
            | (none, cache) =>
                Config.walkLocalConfigFiles ext projectConfigPath rest rootPath configs searched cache
            | (some localConfig, cache) =>
                let rootPath :=
                  match localConfig.propGet "root" with
                  | jbool true => some localConfigDirectory
                  | _ => rootPath
                Config.walkLocalConfigFiles ext projectConfigPath rest rootPath
                  (configs ++ [localConfig]) (searched ++ [localConfigDirectory]) cache

/-- Tail of `getLocalConfigHierarchy`: reverse the collected configs into
root-first order, prepend the cached suffix, and populate the hierarchy cache
for every directory actually walked. -/
def Config.finishLocalHierarchy (configs : List JSVal) (searched : List String)
    (cacheHit : Option (List JSVal)) (cache : ConfigCache) :
    Except NoConfigError (List JSVal) × ConfigCache :=
  let configs := configs.reverse
  let full :=
    match cacheHit with
    | some c => c ++ configs
    | none => configs
  (Except.ok full, cache.setHierarchyLocalConfigs searched full)

/-- `getLocalConfigHierarchy(directory)`: the walk, then — when nothing was
collected, no cache hit occurred and no CLI config file is in use — the
personal-config fallback and possibly the fatal no-configuration-found
error (raised without populating the hierarchy cache). -/
def Config.getLocalConfigHierarchy (r : Config) (ext : External) (directory : String)
    (cache : ConfigCache) : Except NoConfigError (List JSVal) × ConfigCache :=
  let localConfigFiles := ext.findFiles directory
  let projectConfigPath := ext.filenameForDirectory r.cwd
  let w := Config.walkLocalConfigFiles ext projectConfigPath localConfigFiles none [] [] cache
  if w.configs.isEmpty && w.cacheHit.isNone && r.useSpecificConfig.isNone then
    match Config.getPersonalConfig ext w.cache with
    | (some personalConfig, cache) =>
        Config.finishLocalHierarchy [personalConfig] w.searched w.cacheHit cache
    | (none, cache) =>
        if !hasRules r.options && !r.options.baseConfig.truthy then
          (Except.error ⟨directory, localConfigFiles⟩, cache)
        else Config.finishLocalHierarchy [] w.searched w.cacheHit cache
  else Config.finishLocalHierarchy w.configs w.searched w.cacheHit w.cache

/-- `getConfigHierarchy(directory)`:
`[baseConfig] ++ local hierarchy (when useEslintrc) ++ [CLI config file]`. -/
def Config.getConfigHierarchy (r : Config) (ext : External) (directory : String)
    (cache : ConfigCache) : Except NoConfigError (List JSVal) × ConfigCache :=
  if r.useEslintrc then
    match r.getLocalConfigHierarchy ext directory cache with
    | (Except.ok locals, cache) =>
        let configs := r.baseConfig :: locals
        (Except.ok (match r.useSpecificConfig with
                    | some u => configs ++ [u]
                    | none => configs), cache)
    | (Except.error e, cache) => (Except.error e, cache)
  else
    (Except.ok (match r.useSpecificConfig with
                | some u => [r.baseConfig, u]
                | none => [r.baseConfig]), cache)

/-- The `overrides.forEach((override, i) => ...)` loop of `getConfigVector`:
the indices whose override block's `files` globs all match the relative
path, in order. -/
def Config.overrideTokens (ext : External) (relativePath : String) (overrides : List JSVal) :
    List VecTok :=
  overrides.enum.filterMap
    (fun p =>
      if ConfigOps.pathMatchesGlobs ext.minimatch relativePath (p.2.propGet "files") then
        some (VecTok.vnum p.1)
      else none)

/-- `getConfigVector(filePath)`: per hierarchy config, its `filePath` token
followed by the indices of its matching override blocks; glob matching is
done on the target path relative to the config's `baseDirectory`. -/
def Config.getConfigVector (r : Config) (ext : External) (filePath : Option String)
    (cache : ConfigCache) : Except NoConfigError (List VecTok) × ConfigCache :=
  let fp := match filePath with
            | some f => if f = "" then none else some f
            | none => none
  let directory := match fp with
                   | some f => dirname f
                   | none => r.cwd
  match r.getConfigHierarchy ext directory cache with
  | (Except.error e, cache) => (Except.error e, cache)
  | (Except.ok hierarchy, cache) =>
      let vector := hierarchy.foldl
        (fun vector config =>
          let vector := vector ++ [VecTok.vstr (config.propGet "filePath").asStr]
          let overrides := config.propGet "overrides"
          if !overrides.truthy then vector
          else
            let relativePath :=
              ((fp.getD directory)).drop ((config.propGet "baseDirectory").asStr.length + 1)
            vector ++ Config.overrideTokens ext relativePath (arrElems overrides))
        []
      (Except.ok vector, cache)

/-- The cache-miss path of `getConfig` (steps 1–4): filesystem merge from the
vector, CLI-config merge, parser pinning, environment application, then the
final-merge cache write. -/
def Config.computeConfig (r : Config) (ext : External) (vector : List VecTok)
    (cache : ConfigCache) : Except NoConfigError JSVal × ConfigCache :=
  let cc := ConfigOps.getConfigFromVector cache vector
  let config := cc.1
  let cache := cc.2
  let config := ConfigOps.merge config r.cliConfig false false
  let config :=
    if r.parser.truthy || !(config.propGet "parser").truthy then
      ConfigOps.merge config (jobj [("parser", r.parser)]) false false
    else config
  let config :=
    if (config.propGet "env").truthy then ConfigOps.applyEnvironments ext.environments config
    else config
  (Except.ok config, cache.setMergedConfig vector config)

/-- `getConfig(filePath)` — the public resolve entry point: build the vector,
serve a truthy final-merge cache hit, otherwise compute and cache. -/
def Config.getConfig (r : Config) (ext : External) (filePath : Option String)
    (cache : ConfigCache) : Except NoConfigError JSVal × ConfigCache :=
  match r.getConfigVector ext filePath cache with
  | (Except.error e, cache) => (Except.error e, cache)
  | (Except.ok vector, cache) =>
      match cache.getMergedConfig vector with
      | some config =>
          if config.truthy then (Except.ok config, cache)
          else r.computeConfig ext vector cache
      | none => r.computeConfig ext vector cache

/-- A run of successive `getConfig` calls against one resolver instance,
threading the process-wide cache. -/
def Config.runGetConfigs (r : Config) (ext : External) :
    List (Option String) → ConfigCache → List (Except NoConfigError JSVal) × ConfigCache
  | [], cache => ([], cache)
  | filePath :: rest, cache =>
      let rc := r.getConfig ext filePath cache
      let rr := Config.runGetConfigs r ext rest rc.2
      (rc.1 :: rr.1, rr.2)

/-! Association-list lemmas shared by the cache theorems. -/

theorem alookup_aset_self {α : Type} (l : List (String × α)) (k : String) (v : α) :
    alookup (aset l k v) k = some v := by
  induction l with
  | nil => simp [aset, alookup]
  | cons hd tl ih =>
      by_cases h : hd.1 = k
      · simp [aset, alookup, h]
      · simp [aset, alookup, h, ih]

theorem alookup_aset_ne {α : Type} (l : List (String × α)) (k k' : String) (v : α)
    (h : k ≠ k') : alookup (aset l k' v) k = alookup l k := by
  have h' : k' ≠ k := fun hh => h hh.symm
  induction l with
  | nil => simp [aset, alookup, h']
  | cons hd tl ih =>
      by_cases hh : hd.1 = k'
      · have hk : hd.1 ≠ k := by rw [hh]; exact h'
        simp [aset, alookup, hh, hk, h']
      · by_cases hk : hd.1 = k
        · simp [aset, alookup, hh, hk, h]
        · simp [aset, alookup, hh, hk, ih]

/-! Claim C9: the hierarchy-cache population writes shrinking suffix-dropped
slices, one per walked directory. -/

/-- The fold of `setHierarchyLocalConfigs` over later directories does not
disturb the entry of a directory that is not among them. -/
theorem foldl_aset_notmem {α : Type} (f : Nat → α) (d : String) :
    ∀ (ds : List (Nat × String)) (acc : List (String × α)),
      d ∉ ds.map Prod.snd →
      alookup (ds.foldl (fun acc p => aset acc p.2 (f p.1)) acc) d = alookup acc d := by
  intro ds
  induction ds with
  | nil => intro acc _; rfl
  | cons hd tl ih =>
      intro acc hmem
      simp only [List.map_cons, List.mem_cons] at hmem
      push_neg at hmem
      simp only [List.foldl_cons]
      rw [ih _ hmem.2, alookup_aset_ne _ _ _ _ hmem.1]

/-- Looking up a walked directory after the `setHierarchyLocalConfigs` fold:
directory at position `j` (within the enumerated tail starting at `n`) maps
to `f (n + j)`. -/
theorem foldl_aset_enumFrom_get {α : Type} (f : Nat → α) :
    ∀ (ds : List String) (n j : Nat) (dir : String) (acc : List (String × α)),
      ds.Nodup → ds.get? j = some dir →
      alookup ((ds.enumFrom n).foldl (fun acc p => aset acc p.2 (f p.1)) acc) dir
        = some (f (n + j)) := by
  intro ds
  induction ds with
  | nil => intro n j dir acc _ hget; simp at hget
  | cons hd tl ih =>
      intro n j dir acc hnd hget
      simp only [List.nodup_cons] at hnd
      match j with
      | 0 =>
          simp only [List.get?] at hget
          injection hget with hget
          subst hget
          simp only [List.enumFrom_cons, List.foldl_cons]
          rw [foldl_aset_notmem _ _ _ _ (by simpa using hnd.1), alookup_aset_self,
            Nat.add_zero]
      | j + 1 =>
          simp only [List.get?] at hget
          simp only [List.enumFrom_cons, List.foldl_cons]
          rw [ih (n + 1) j dir _ hnd.2 hget]
          have hnj : n + 1 + j = n + (j + 1) := by omega
          rw [hnj]

/-- `slice(0, len - i)` is `take (len - i)` when `i ≤ len`. -/
theorem jsSliceTo_sub_of_le {α : Type} (xs : List α) (i : Nat) (h : i ≤ xs.length) :
    ConfigCache.jsSliceTo xs ((xs.length : Int) - (i : Int)) = xs.take (xs.length - i) := by
  unfold ConfigCache.jsSliceTo
  have h1 : ¬ ((xs.length : Int) - (i : Int) < 0) := by omega
  have h2 : ((xs.length : Int) - (i : Int)).toNat = xs.length - i := by omega
  rw [if_neg h1, h2]

/-- Claim C9: `setHierarchyLocalConfigs(directories, configs)`, given the
walked directories nearest-first and the root-first config list, stores for
the directory at index `i` (0 = nearest) the slice `configs[0 .. len-i)` —
the nearest directory gets the full list and each farther directory drops one
more trailing config — and a later hierarchy lookup for that directory
returns exactly that stored list. -/
theorem c9_hierarchy_cache_suffixes (c : ConfigCache) (dirs : List String)
    (cfgs : List JSVal) (i : Nat) (dir : String)
    (hnd : dirs.Nodup) (hget : dirs.get? i = some dir) (hlen : dirs.length ≤ cfgs.length) :
    (c.setHierarchyLocalConfigs dirs cfgs).getHierarchyLocalConfigs dir
      = some (cfgs.take (cfgs.length - i)) := by
  have hi : i < dirs.length := by
    by_contra hc
    push_neg at hc
    rw [List.get?_eq_none.mpr hc] at hget
    exact Option.noConfusion hget
  unfold ConfigCache.setHierarchyLocalConfigs ConfigCache.getHierarchyLocalConfigs
  simp only [List.enum]
  rw [foldl_aset_enumFrom_get (fun k => ConfigCache.jsSliceTo cfgs ((cfgs.length : Int) - (k : Int)))
        dirs 0 i dir _ hnd hget]
  simp only [Nat.zero_add]
  rw [jsSliceTo_sub_of_le cfgs i (by omega)]

/-- Witness for C9 at a concrete cache write. -/
theorem c9_hierarchy_cache_suffixes_witness :
    (ConfigCache.init.setHierarchyLocalConfigs ["/p/a", "/p"]
        [jnum 1, jnum 2, jnum 3]).getHierarchyLocalConfigs "/p"
      = some ([jnum 1, jnum 2, jnum 3].take 2) :=
  c9_hierarchy_cache_suffixes ConfigCache.init ["/p/a", "/p"] [jnum 1, jnum 2, jnum 3] 1 "/p"
    (by decide) rfl (by decide)

/-! Claim C6: override matching is conjunctive. -/

/-- Claim C6: `pathMatchesGlobs(filePath, patterns)` is true iff **every**
pattern of the (possibly singleton) pattern list matches the path, and —
in `getConfigVector`'s override scan — the index `i` is appended to the
vector exactly when override block `i` exists and all of its `files` globs
match; hence a path matching only some of an override's patterns does not
select it. -/
theorem c6_override_matching_conjunctive :
    (∀ (m : String → String → Bool) (filePath : String) (patterns : JSVal),
        ConfigOps.pathMatchesGlobs m filePath patterns = true ↔
          ∀ p ∈ ConfigOps.jsToElems patterns, m filePath p.asStr = true) ∧
    (∀ (ext : External) (relativePath : String) (overrides : List JSVal) (i : Nat),
        VecTok.vnum i ∈ Config.overrideTokens ext relativePath overrides ↔
          ∃ ov, overrides.get? i = some ov ∧
            ConfigOps.pathMatchesGlobs ext.minimatch relativePath (ov.propGet "files") = true) := by
  constructor
  · intro m filePath patterns
    unfold ConfigOps.pathMatchesGlobs
    rw [List.all_eq_true]
  · intro ext relativePath overrides i
    unfold Config.overrideTokens
    rw [List.mem_filterMap]
    constructor
    · rintro ⟨p, hp, hsome⟩
      by_cases hm : ConfigOps.pathMatchesGlobs ext.minimatch relativePath (p.2.propGet "files") = true
      · rw [if_pos hm] at hsome
        injection hsome with hsome
        obtain ⟨i1, ov⟩ := p
        injection hsome with hsome
        subst hsome
        refine ⟨ov, ?_, hm⟩
        rw [List.get?_eq_getElem?]
        exact (List.mk_mem_enum_iff_getElem?.mp hp)
      · rw [if_neg hm] at hsome
        exact Option.noConfusion hsome
    · rintro ⟨ov, hget, hm⟩
      refine ⟨(i, ov), ?_, ?_⟩
      · rw [List.mk_mem_enum_iff_getElem?]
        rw [List.get?_eq_getElem?] at hget
        exact hget
      · rw [if_pos hm]

/-! Claim C8: `applyEnvironments`.  The source guards on truthiness of
`config.env`, and an empty object is truthy in JavaScript, so an empty `env`
still goes through the merge — the claim's "returns the config unchanged for
an empty env" is refuted below and the guard is characterized exactly. -/

/-- An environment registry that knows no environments. -/
def c8EmptyRegistry : String → Option JSVal := fun _ => none

/-- A config whose `env` is the empty object. -/
def c8Config : JSVal := jobj [("env", jobj [])]

/-- Counterexample to C8: for `config = {env: {}}` (an *empty* object `env`),
`applyEnvironments` does not return the config unchanged — the empty object
is truthy, so the merge with the empty-config skeleton runs and introduces
`globals`/`rules`/`parserOptions` keys. -/
theorem c8_counterexample_empty_env :
    ConfigOps.applyEnvironments c8EmptyRegistry c8Config ≠ c8Config := by
  intro h
  have h2 : (ConfigOps.applyEnvironments c8EmptyRegistry c8Config).hasKey "globals"
      = c8Config.hasKey "globals" := congrArg (fun v => v.hasKey "globals") h
  rw [show (ConfigOps.applyEnvironments c8EmptyRegistry c8Config).hasKey "globals" = true
        by decide,
      show c8Config.hasKey "globals" = false by decide] at h2
  exact absurd h2 (by decide)

/-- Claim C8 (amended): when `config.env` is truthy and of object type —
including the empty object, which is truthy in JavaScript —
`applyEnvironments(config)` equals `merge(createEnvironmentConfig(config.env),
config)` (environment contributions are the base, the original config's
explicit values win); the config is returned unchanged exactly when `env` is
falsy or not of object type (absent, `undefined`, `null`, `false`, `0`,
`""`). -/
theorem c8_applyEnvironments_characterization (envs : String → Option JSVal) (config : JSVal) :
    ((config.propGet "env").truthy = true → (config.propGet "env").typeofObject = true →
        ConfigOps.applyEnvironments envs config
          = ConfigOps.merge (ConfigOps.createEnvironmentConfig envs (config.propGet "env"))
              config false false) ∧
    ((config.propGet "env").truthy = false ∨ (config.propGet "env").typeofObject = false →
        ConfigOps.applyEnvironments envs config = config) := by
  constructor
  · intro h1 h2
    unfold ConfigOps.applyEnvironments
    rw [h1, h2]
    rfl
  · intro h
    unfold ConfigOps.applyEnvironments
    rcases h with h | h <;> rw [h] <;> simp

/-- Witness for C8 (amended) at a one-environment config. -/
theorem c8_applyEnvironments_characterization_witness :
    ConfigOps.applyEnvironments c8EmptyRegistry (jobj [("env", jobj [("node", jbool true)])])
      = ConfigOps.merge
          (ConfigOps.createEnvironmentConfig c8EmptyRegistry (jobj [("node", jbool true)]))
          (jobj [("env", jobj [("node", jbool true)])]) false false :=
  (c8_applyEnvironments_characterization c8EmptyRegistry
      (jobj [("env", jobj [("node", jbool true)])])).1 (by decide) (by decide)

/-! Claim C7: severity round trip.  `normalize` lowercases before its table
lookup, so a *case-insensitively* valid textual severity such as `"Error"`
round-trips to its lowercase form, not to the original string; the exact
round trip holds for lowercase severities, and invalid text goes to
`0`/`"off"`. -/

theorem aset_aset_self {α : Type} (l : List (String × α)) (k : String) (a b : α) :
    aset (aset l k a) k b = aset l k b := by
  induction l with
  | nil => simp [aset]
  | cons hd tl ih =>
      by_cases hh : hd.1 = k
      · simp [aset, hh]
      · simp [aset, hh, ih]

theorem aset_id_of_alookup {α : Type} (l : List (String × α)) (k : String) (v : α)
    (h : alookup l k = some v) : aset l k v = l := by
  induction l with
  | nil => simp [alookup] at h
  | cons hd tl ih =>
      by_cases hh : hd.1 = k
      · simp only [alookup, if_pos hh] at h
        injection h with h
        obtain ⟨k1, v1⟩ := hd
        simp only at hh
        subst hh
        subst h
        simp [aset]
      · simp only [alookup, if_neg hh] at h
        simp [aset, hh, ih h]

theorem alookup_of_propGet_obj (cs : List (String × JSVal)) (k : String)
    (kvs : List (String × JSVal)) (h : (jobj cs).propGet k = jobj kvs) :
    alookup cs k = some (jobj kvs) := by
  simp only [JSVal.propGet] at h
  cases hh : alookup cs k with
  | none => rw [hh] at h; exact absurd h (by simp [Option.getD])
  | some v => rw [hh] at h; simp only [Option.getD] at h; rw [h]

/-- The textual severities `isValidSeverity` accepts, case-insensitively. -/
def validSevText (s : String) : Bool :=
  jsToLower s == "off" || jsToLower s == "warn" || jsToLower s == "error"

/-- A rule entry whose severity is textual (scalar, or first element of the
array form) and case-insensitively valid. -/
def entrySevTextValid : JSVal → Bool
  | jstr s => validSevText s
  | jarr (jstr s :: _) => validSevText s
  | _ => false

/-- The lowercased form of a textual-severity rule entry. -/
def lowerSevEntry : JSVal → JSVal
  | jstr s => jstr (jsToLower s)
  | jarr (jstr s :: rest) => jarr (jstr (jsToLower s) :: rest)
  | v => v

/-- Round trip of one valid textual rule entry: numeric and back is the
lowercased original. -/
theorem roundTrip_entry_valid (v : JSVal) (hv : entrySevTextValid v = true) :
    ConfigOps.stringifyRuleEntry (ConfigOps.normalizeRuleEntry v) = lowerSevEntry v := by
  match v with
  | jstr s =>
      simp only [entrySevTextValid, validSevText, Bool.or_eq_true, beq_iff_eq] at hv
      simp only [ConfigOps.normalizeRuleEntry, ConfigOps.stringifyRuleEntry, lowerSevEntry]
      rcases hv with (h | h) | h <;> rw [h] <;> rfl
  | jarr (jstr s :: rest) =>
      simp only [entrySevTextValid, validSevText, Bool.or_eq_true, beq_iff_eq] at hv
      simp only [ConfigOps.normalizeRuleEntry, ConfigOps.stringifyRuleEntry, lowerSevEntry]
      rcases hv with (h | h) | h <;> rw [h] <;> rfl

/-- Counterexample to C7 as stated: `"Error"` is a valid textual severity
(case-insensitively, per `isValidSeverity`), yet
`normalizeToStrings(normalize(C))` yields `"error"`, not the original
`"Error"`. -/
theorem c7_counterexample_mixed_case :
    ConfigOps.isValidSeverity (jstr "Error") = true ∧
    ConfigOps.normalizeToStrings
        (ConfigOps.normalize (jobj [("rules", jobj [("no-undefined", jstr "Error")])]))
      ≠ jobj [("rules", jobj [("no-undefined", jstr "Error")])] := by
  constructor
  · decide
  · intro h
    have h2 : (ConfigOps.normalizeToStrings
          (ConfigOps.normalize (jobj [("rules", jobj [("no-undefined", jstr "Error")])]))).propGet
            "rules"
        = (jobj [("rules", jobj [("no-undefined", jstr "Error")])] : JSVal).propGet "rules" :=
      congrArg (fun v => v.propGet "rules") h
    rw [show (ConfigOps.normalizeToStrings
          (ConfigOps.normalize (jobj [("rules", jobj [("no-undefined", jstr "Error")])]))).propGet
            "rules"
        = jobj [("no-undefined", jstr "error")] by rfl] at h2
    rw [show (jobj [("rules", jobj [("no-undefined", jstr "Error")])] : JSVal).propGet "rules"
        = jobj [("no-undefined", jstr "Error")] by rfl] at h2
    injection h2 with h3
    injection h3 with h4 h5
    injection h4 with h6 h7
    injection h7 with h8
    exact absurd h8 (by decide)

/-- Claim C7 (amended): for a config whose `rules` entries all carry
case-insensitively valid textual severities, `normalizeToStrings ∘ normalize`
yields the config with each severity replaced by its **lowercased** textual
form — the exact original when the severities were already lowercase.  An
invalid textual severity is mapped by `normalize` to `0` and by
`normalizeToStrings` to `"off"` unless its lowercased form is `"constructor"`
or `"__proto__"`: for those, `RULE_SEVERITY[s]` reads a truthy inherited
`Object.prototype` member (so `|| 0` never falls back), `normalize` stores
that host value — the `Object` function, resp. `Object.prototype` — and
`normalizeToStrings`, which rewrites only numeric severities, leaves it
unchanged. -/
theorem c7_severity_round_trip_lowercase (cs kvs : List (String × JSVal))
    (hrules : (jobj cs).propGet "rules" = jobj kvs) :
    (kvs.all (fun kv => entrySevTextValid kv.2) = true →
        ConfigOps.normalizeToStrings (ConfigOps.normalize (jobj cs))
          = (jobj cs).propSet "rules"
              (jobj (kvs.map (fun kv => (kv.1, lowerSevEntry kv.2))))) ∧
    (kvs.all (fun kv => entrySevTextValid kv.2) = true →
        kvs.map (fun kv => (kv.1, lowerSevEntry kv.2)) = kvs →
        ConfigOps.normalizeToStrings (ConfigOps.normalize (jobj cs)) = jobj cs) ∧
    (∀ s, validSevText s = false → jsToLower s ≠ "constructor" →
        jsToLower s ≠ "__proto__" →
        ConfigOps.normalizeRuleEntry (jstr s) = jnum 0 ∧
        ConfigOps.stringifyRuleEntry (jnum 0) = jstr "off") ∧
    (∀ s, jsToLower s = "constructor" →
        ConfigOps.normalizeRuleEntry (jstr s) = jhost "function" "Object" ∧
        ConfigOps.stringifyRuleEntry (jhost "function" "Object")
          = jhost "function" "Object") ∧
    (∀ s, jsToLower s = "__proto__" →
        ConfigOps.normalizeRuleEntry (jstr s) = jhost "object" "Object.prototype" ∧
        ConfigOps.stringifyRuleEntry (jhost "object" "Object.prototype")
          = jhost "object" "Object.prototype") := by
  have halk : alookup cs "rules" = some (jobj kvs) := alookup_of_propGet_obj cs "rules" kvs hrules
  have hmain : kvs.all (fun kv => entrySevTextValid kv.2) = true →
      ConfigOps.normalizeToStrings (ConfigOps.normalize (jobj cs))
        = (jobj cs).propSet "rules"
            (jobj (kvs.map (fun kv => (kv.1, lowerSevEntry kv.2)))) := by
    intro hvalidB
    rw [List.all_eq_true] at hvalidB
    have h1 : ConfigOps.normalize (jobj cs)
        = jobj (aset cs "rules"
            (jobj (kvs.map (fun kv => (kv.1, ConfigOps.normalizeRuleEntry kv.2))))) := by
      unfold ConfigOps.normalize
      rw [hrules]
      simp [ConfigOps.mapRuleValues, JSVal.propSet, JSVal.truthy]
    rw [h1]
    unfold ConfigOps.normalizeToStrings
    rw [show (jobj (aset cs "rules"
            (jobj (kvs.map (fun kv => (kv.1, ConfigOps.normalizeRuleEntry kv.2)))))
          : JSVal).propGet "rules"
        = jobj (kvs.map (fun kv => (kv.1, ConfigOps.normalizeRuleEntry kv.2))) by
      simp [JSVal.propGet, alookup_aset_self]]
    simp only [JSVal.truthy, if_pos]
    simp only [ConfigOps.mapRuleValues, JSVal.propSet, List.map_map]
    rw [aset_aset_self]
    have hmap2 : kvs.map ((fun kv => ((kv : String × JSVal).1, ConfigOps.stringifyRuleEntry kv.2))
          ∘ (fun kv => (kv.1, ConfigOps.normalizeRuleEntry kv.2)))
        = kvs.map (fun kv => (kv.1, lowerSevEntry kv.2)) := by
      apply List.map_congr_left
      intro kv hkv
      simp only [Function.comp]
      rw [roundTrip_entry_valid kv.2 (hvalidB kv hkv)]
    rw [hmap2]
  refine ⟨hmain, ?_, ?_, ?_, ?_⟩
  · intro hvalidB hmap
    rw [hmain hvalidB, hmap]
    simp only [JSVal.propSet]
    rw [aset_id_of_alookup cs "rules" (jobj kvs) halk]
  · intro s hs hc hp
    refine ⟨?_, rfl⟩
    simp only [validSevText, Bool.or_eq_false_iff, beq_eq_false_iff_ne, ne_eq] at hs
    obtain ⟨⟨h1, h2⟩, h3⟩ := hs
    have hud : ConfigOps.rulesSeverityLookup (jsToLower s) = JSVal.undef := by
      unfold ConfigOps.rulesSeverityLookup
      rw [if_neg h1, if_neg h2, if_neg h3, if_neg hc, if_neg hp]
    simp only [ConfigOps.normalizeRuleEntry, ConfigOps.ruleSeverityOf, hud]
    rfl
  · intro s h
    refine ⟨?_, rfl⟩
    simp only [ConfigOps.normalizeRuleEntry, h]
    rfl
  · intro s h
    refine ⟨?_, rfl⟩
    simp only [ConfigOps.normalizeRuleEntry, h]
    rfl

/-- Witness for C7 (amended): lowercase severities round-trip to the
original, in scalar and array form. -/
theorem c7_severity_round_trip_lowercase_witness :
    ConfigOps.normalizeToStrings (ConfigOps.normalize
        (jobj [("rules", jobj [("a", jstr "warn"), ("b", jarr [jstr "error", jnum 1])])]))
      = jobj [("rules", jobj [("a", jstr "warn"), ("b", jarr [jstr "error", jnum 1])])] :=
  (c7_severity_round_trip_lowercase
      [("rules", jobj [("a", jstr "warn"), ("b", jarr [jstr "error", jnum 1])])]
      [("a", jstr "warn"), ("b", jarr [jstr "error", jnum 1])] rfl).2.1
    (by decide) rfl

/-! Claims C1 and C10: cache writes of `getConfigFromVector`.  The fold
writes every intermediate result under `hash(vector)` — the key of the FULL
input vector (`configCache.setMergedVectorConfig(vector, config)` inside the
loop uses `vector`, not the prefix consumed so far) — so no prefix-keyed
entries are created (refuting C1 as stated), and for a nonempty vector the
last write (or the early-return hit) leaves the full-vector entry equal to
the returned config (C10, which fails only for the empty vector, where the
fold body never runs and nothing is written). -/

/-- A merge always produces an array or an object, hence a truthy value. -/
theorem merge_truthy (target src : JSVal) (combine isRule : Bool) :
    (ConfigOps.merge target src combine isRule).truthy = true := by
  unfold ConfigOps.merge
  show (ConfigOps.mergeFuel (jsize src + 1) target src combine isRule).truthy = true
  rw [ConfigOps.mergeFuel]
  split <;> rfl

/-- Deleting a property preserves truthiness of arrays and objects. -/
theorem propDel_truthy (v : JSVal) (k : String) (h : v.truthy = true) :
    (v.propDel k).truthy = true := by
  cases v <;> simp_all [JSVal.propDel, JSVal.truthy]

/-- The config accumulated by the fold loop stays truthy. -/
theorem foldVector_truthy (full : List VecTok) :
    ∀ (rest : List VecTok) (config subConfigs : JSVal) (cache : ConfigCache),
      config.truthy = true →
      ((ConfigOps.foldVector full rest config subConfigs cache).1).truthy = true := by
  intro rest
  induction rest with
  | nil => intro config sub cache h; exact h
  | cons tok rest ih =>
      intro config sub cache _
      simp only [ConfigOps.foldVector]
      apply ih
      split
      · exact propDel_truthy _ _ (propDel_truthy _ _ (merge_truthy _ _ _ _))
      · split
        · exact propDel_truthy _ _ (merge_truthy _ _ _ _)
        · exact merge_truthy _ _ _ _

/-- After a nonempty fold, the merged-vector cache holds the returned config
under the full vector's key. -/
theorem foldVector_entry (full : List VecTok) :
    ∀ (rest : List VecTok) (config subConfigs : JSVal) (cache : ConfigCache),
      rest ≠ [] →
      (ConfigOps.foldVector full rest config subConfigs cache).2.getMergedVectorConfig full
        = some (ConfigOps.foldVector full rest config subConfigs cache).1 := by
  intro rest
  induction rest with
  | nil => intro _ _ _ h; exact absurd rfl h
  | cons tok rest ih =>
      intro config sub cache _
      simp only [ConfigOps.foldVector]
      match rest with
      | [] =>
          simp only [ConfigOps.foldVector]
          unfold ConfigCache.getMergedVectorConfig ConfigCache.setMergedVectorConfig
          exact alookup_aset_self _ _ _
      | tok2 :: rest2 => exact ih _ _ _ (by simp)

/-- The fold loop touches no merged-vector cache key other than the full
vector's. -/
theorem foldVector_frame (full : List VecTok) (k : String) (hk : k ≠ hashVector full) :
    ∀ (rest : List VecTok) (config subConfigs : JSVal) (cache : ConfigCache),
      alookup ((ConfigOps.foldVector full rest config subConfigs cache).2).mergedVectorCache k
        = alookup cache.mergedVectorCache k := by
  intro rest
  induction rest with
  | nil => intro _ _ _; rfl
  | cons tok rest ih =>
      intro config sub cache
      simp only [ConfigOps.foldVector]
      rw [ih]
      exact alookup_aset_ne _ _ _ _ hk

/-- What a probe hit means: the hit index is below the probe bound, the entry
for the prefix ending at the hit index is the returned config, and it is
truthy. -/
theorem probeLoop_spec (cache : ConfigCache) (v : List VecTok) :
    ∀ (n : Nat) (c : JSVal) (k : Nat),
      ConfigOps.probeLoop cache v n = some (c, k) →
      k < n ∧ cache.getMergedVectorConfig (v.take (k + 1)) = some c ∧ c.truthy = true := by
  intro n
  induction n with
  | zero => intro c k h; exact absurd h (by rw [ConfigOps.probeLoop]; simp)
  | succ n ih =>
      intro c k h
      rw [ConfigOps.probeLoop] at h
      revert h
      match hentry : cache.getMergedVectorConfig (v.take (n + 1)) with
      | some config =>
          simp only []
          split
          · intro h
            injection h with h
            injection h with h1 h2
            subst h1
            subst h2
            refine ⟨Nat.lt_succ_self _, hentry, by assumption⟩
          · intro h
            have := ih c k h
            exact ⟨Nat.lt_succ_of_lt this.1, this.2.1, this.2.2⟩
      | none =>
          simp only []
          intro h
          have := ih c k h
          exact ⟨Nat.lt_succ_of_lt this.1, this.2.1, this.2.2⟩

/-- A truthy entry under the full vector's key makes the probe hit
immediately. -/
theorem probeLoop_hit_full (cache : ConfigCache) (v : List VecTok) (c : JSVal) (n : Nat)
    (hn : v.length = n + 1)
    (hentry : cache.getMergedVectorConfig v = some c) (htr : c.truthy = true) :
    ConfigOps.probeLoop cache v v.length = some (c, n) := by
  rw [hn, ConfigOps.probeLoop]
  rw [show v.take (n + 1) = v from by rw [← hn]; exact List.take_length v]
  rw [hentry]
  simp [htr]

/-- A second `getConfigFromVector` call whose full-vector entry is a truthy
config returns that entry from the first cache probe, with the cache
untouched and no merge performed. -/
theorem getConfigFromVector_second (cache : ConfigCache) (vector : List VecTok) (c : JSVal)
    (hne : vector ≠ [])
    (hentry : cache.getMergedVectorConfig vector = some c) (htr : c.truthy = true) :
    ConfigOps.getConfigFromVector cache vector = (c, cache) := by
  obtain ⟨tok, rest, rfl⟩ := List.exists_cons_of_ne_nil hne
  unfold ConfigOps.getConfigFromVector
  rw [probeLoop_hit_full cache (tok :: rest) c rest.length rfl hentry htr]
  simp

/-- Counterexample to C10 as stated ("for every vector"): on the empty vector
the probe loop never runs, the fold body never runs, `{}` is returned, and
nothing is written — the partial-merge cache entry under the empty vector's
key does not equal the returned config (it does not even exist). -/
theorem c10_counterexample_empty_vector :
    (ConfigOps.getConfigFromVector ConfigCache.init []).1 = jobj [] ∧
    (ConfigOps.getConfigFromVector ConfigCache.init []).2.getMergedVectorConfig [] = none :=
  ⟨rfl, rfl⟩

/-- Claim C10 (amended): for every NONEMPTY vector `v`, immediately after
`getConfigFromVector(v)` returns `c`, the partial-merge cache entry keyed by
the full vector equals `c` — each per-token write lands on the same
full-vector key and the last one wins, and the early-return path leaves the
pre-existing entry (which is what it returned) in place — so a second call on
`v` with the caches unchanged returns `c` via the first cache probe and
changes nothing. -/
theorem c10_full_vector_entry_nonempty (cache : ConfigCache) (vector : List VecTok)
    (hne : vector ≠ []) :
    (ConfigOps.getConfigFromVector cache vector).2.getMergedVectorConfig vector
        = some (ConfigOps.getConfigFromVector cache vector).1 ∧
    ConfigOps.getConfigFromVector (ConfigOps.getConfigFromVector cache vector).2 vector
        = ConfigOps.getConfigFromVector cache vector := by
  have hmain : (ConfigOps.getConfigFromVector cache vector).2.getMergedVectorConfig vector
        = some (ConfigOps.getConfigFromVector cache vector).1 ∧
      ((ConfigOps.getConfigFromVector cache vector).1).truthy = true := by
    unfold ConfigOps.getConfigFromVector
    cases hp : ConfigOps.probeLoop cache vector vector.length with
    | none =>
        dsimp only
        exact ⟨foldVector_entry vector vector _ _ cache hne,
          foldVector_truthy vector vector _ _ cache rfl⟩
    | some ck =>
        obtain ⟨c0, k⟩ := ck
        have hspec := probeLoop_spec cache vector vector.length c0 k hp
        dsimp only
        by_cases hk : k + 1 = vector.length
        · rw [if_pos hk]
          have htake : vector.take (k + 1) = vector := by
            rw [hk]; exact List.take_length vector
          rw [htake] at hspec
          exact ⟨hspec.2.1, hspec.2.2⟩
        · rw [if_neg hk]
          have hdrop : vector.drop (k + 1) ≠ [] := by
            intro hd
            rw [List.drop_eq_nil_iff] at hd
            omega
          exact ⟨foldVector_entry vector _ _ _ cache hdrop,
            foldVector_truthy vector _ _ _ cache hspec.2.2⟩
  refine ⟨hmain.1, ?_⟩
  rw [getConfigFromVector_second _ vector _ hne hmain.1 hmain.2]

/-- Witness for C10 (amended) on a one-token vector over a fresh cache. -/
theorem c10_full_vector_entry_nonempty_witness :
    (ConfigOps.getConfigFromVector ConfigCache.init [VecTok.vstr "x"]).2.getMergedVectorConfig
          [VecTok.vstr "x"]
        = some (ConfigOps.getConfigFromVector ConfigCache.init [VecTok.vstr "x"]).1 ∧
    ConfigOps.getConfigFromVector
          (ConfigOps.getConfigFromVector ConfigCache.init [VecTok.vstr "x"]).2 [VecTok.vstr "x"]
        = ConfigOps.getConfigFromVector ConfigCache.init [VecTok.vstr "x"] :=
  c10_full_vector_entry_nonempty ConfigCache.init [VecTok.vstr "x"] (by simp)

/-- The constructor-tagged base config of the C1 counterexample. -/
def c1Base : JSVal :=
  jobj [("rules", jobj []), ("filePath", jstr ""), ("baseDirectory", jstr "/p")]

/-- A project-root config source. -/
def c1CfgA : JSVal :=
  jobj [("filePath", jstr "/p/.eslintrc"), ("baseDirectory", jstr "/p"),
    ("rules", jobj [("a", jstr "warn")])]

/-- A nested config source. -/
def c1CfgB : JSVal :=
  jobj [("filePath", jstr "/p/sub/.eslintrc"), ("baseDirectory", jstr "/p/sub"),
    ("rules", jobj [("b", jstr "error")])]

/-- The cache state before the C1 call: the constructor's writes plus the two
loaded shallow configs. -/
def c1Cache : ConfigCache :=
  ((Config.initialCache c1Base).setConfig "/p/.eslintrc" c1CfgA).setConfig
    "/p/sub/.eslintrc" c1CfgB

/-- The three-token vector for a file under `/p/sub`. -/
def c1Vector : List VecTok :=
  [VecTok.vstr "", VecTok.vstr "/p/.eslintrc", VecTok.vstr "/p/sub/.eslintrc"]

/-- Counterexample to C1: the fold consumes the two local-config tokens (both
rule sets appear in the result), yet the vector prefix ending at the first
folded token has NO partial-merge cache entry afterwards — every per-token
write went to the full vector's key, so prefixes are not independently
retrievable. -/
theorem c1_counterexample_prefix_not_cached :
    (ConfigOps.getConfigFromVector c1Cache c1Vector).1
        = jobj [("rules", jobj [("a", jstr "warn"), ("b", jstr "error")])] ∧
    (ConfigOps.getConfigFromVector c1Cache c1Vector).2.getMergedVectorConfig
        [VecTok.vstr "", VecTok.vstr "/p/.eslintrc"] = none :=
  ⟨rfl, rfl⟩

/-- Claim C1 (amended): after folding each remaining token,
`getConfigFromVector` writes the accumulated result back into the
partial-merge cache under the key of the FULL input vector (not the prefix
consumed so far); consequently a call on vector `v` can change the
partial-merge cache only at `hash v`, and creates no per-prefix entries. -/
theorem c1_fold_writes_only_full_key (cache : ConfigCache) (vector : List VecTok) (k : String)
    (hk : k ≠ hashVector vector) :
    alookup ((ConfigOps.getConfigFromVector cache vector).2).mergedVectorCache k
      = alookup cache.mergedVectorCache k := by
  unfold ConfigOps.getConfigFromVector
  cases hp : ConfigOps.probeLoop cache vector vector.length with
  | none =>
      dsimp only
      exact foldVector_frame vector k hk vector _ _ cache
  | some ck =>
      obtain ⟨c0, i⟩ := ck
      dsimp only
      by_cases hik : i + 1 = vector.length
      · rw [if_pos hik]
      · rw [if_neg hik]
        exact foldVector_frame vector k hk _ _ _ cache

/-- Witness for C1 (amended): a key other than the full vector's is
untouched. -/
theorem c1_fold_writes_only_full_key_witness :
    alookup ((ConfigOps.getConfigFromVector ConfigCache.init [VecTok.vstr "x"]).2).mergedVectorCache
        "y"
      = alookup ConfigCache.init.mergedVectorCache "y" :=
  c1_fold_writes_only_full_key ConfigCache.init [VecTok.vstr "x"] "y" (by decide)

/-! Claim C3: bookkeeping keys in the final merged config.  The fold deletes
`filePath`/`baseDirectory` only when the accumulated `filePath` is truthy,
and never deletes `overrides`; the base config's `filePath` is `""` (falsy),
so a base-only vector keeps `filePath` and `baseDirectory`, and override
blocks contributed by sources keep an `overrides` key in the final config. -/

theorem alookup_filter_self_none {α : Type} (kvs : List (String × α)) (k : String) :
    alookup (kvs.filter (fun kv => kv.1 ≠ k)) k = none := by
  induction kvs with
  | nil => rfl
  | cons hd tl ih =>
      simp only [List.filter_cons]
      by_cases hh : hd.1 = k
      · rw [if_neg (by simp [hh])]
        exact ih
      · rw [if_pos (by simp [hh])]
        simp only [alookup]
        rw [if_neg hh]
        exact ih

theorem alookup_filter_other {α : Type} (kvs : List (String × α)) (k k' : String)
    (h : k ≠ k') :
    alookup (kvs.filter (fun kv => kv.1 ≠ k')) k = alookup kvs k := by
  induction kvs with
  | nil => rfl
  | cons hd tl ih =>
      simp only [List.filter_cons]
      by_cases hh : hd.1 = k'
      · have hk : hd.1 ≠ k := by rw [hh]; exact fun hhh => h hhh.symm
        rw [if_neg (by simp [hh])]
        rw [ih]
        simp only [alookup]
        rw [if_neg hk]
      · rw [if_pos (by simp [hh])]
        simp only [alookup]
        by_cases hk : hd.1 = k
        · rw [if_pos hk, if_pos hk]
        · rw [if_neg hk, if_neg hk, ih]

/-- Deleting one key leaves reads of a different key unchanged. -/
theorem propGet_propDel_other (v : JSVal) (k k' : String) (h : k ≠ k') :
    (v.propDel k').propGet k = v.propGet k := by
  cases v with
  | jobj kvs =>
      show (alookup (kvs.filter (fun kv => kv.1 ≠ k')) k).getD JSVal.undef
        = (alookup kvs k).getD JSVal.undef
      rw [alookup_filter_other kvs k k' h]
  | undef => rfl
  | jnull => rfl
  | jbool b => rfl
  | jnum n => rfl
  | jstr s => rfl
  | jarr xs => rfl
  | jhost tf nm => rfl

/-- One fold step cannot leave a truthy `filePath` behind: a truthy
`filePath` is deleted, and in the other branches it was already falsy. -/
theorem stripKeys_filePath_not_truthy (m : JSVal) :
    ((if (m.propGet "filePath").truthy then (m.propDel "filePath").propDel "baseDirectory"
      else if (m.propGet "files").truthy then m.propDel "files"
      else m).propGet "filePath").truthy = false := by
  cases m with
  | jobj kvs =>
      by_cases h1 : ((JSVal.jobj kvs).propGet "filePath").truthy = true
      · rw [if_pos h1, propGet_propDel_other _ "filePath" "baseDirectory" (by decide)]
        show ((alookup (kvs.filter (fun kv => kv.1 ≠ "filePath")) "filePath").getD
          JSVal.undef).truthy = false
        rw [alookup_filter_self_none]
        rfl
      · rw [if_neg h1]
        by_cases h2 : ((JSVal.jobj kvs).propGet "files").truthy = true
        · rw [if_pos h2, propGet_propDel_other _ "filePath" "files" (by decide)]
          simpa using h1
        · rw [if_neg h2]
          simpa using h1
  | undef => rfl
  | jnull => rfl
  | jbool b => rfl
  | jnum n => rfl
  | jstr s => rfl
  | jarr xs => rfl
  | jhost tf nm => rfl

/-- The accumulated fold config never ends a step with a truthy `filePath`. -/
theorem foldVector_filePath_not_truthy (full : List VecTok) :
    ∀ (rest : List VecTok) (config subConfigs : JSVal) (cache : ConfigCache),
      (config.propGet "filePath").truthy = false →
      ((((ConfigOps.foldVector full rest config subConfigs cache).1).propGet "filePath").truthy
        = false) := by
  intro rest
  induction rest with
  | nil => intro config sub cache h; exact h
  | cons tok rest ih =>
      intro config sub cache _
      simp only [ConfigOps.foldVector]
      apply ih
      exact stripKeys_filePath_not_truthy _

/-- The base config as tagged by the constructor for the C3 scenarios. -/
def c3Base : JSVal :=
  jobj [("rules", jobj []), ("filePath", jstr ""), ("baseDirectory", jstr "/cwd")]

/-- Collaborators for a run with no filesystem configs at all. -/
def c3External : External where
  findFiles := fun _ => []
  readConfigFile := fun _ => none
  filenameForDirectory := fun _ => none
  environments := fun _ => none
  minimatch := fun _ _ => true
  personalConfigDir := none

/-- A resolver that uses only its base config (`useEslintrc: false`, no CLI
options). -/
def c3Resolver : Config where
  options := ⟨JSVal.undef, JSVal.undef⟩
  parser := JSVal.undef
  baseConfig := c3Base
  useEslintrc := false
  useSpecificConfig := none
  cliConfig := jobj []
  cwd := "/cwd"

/-- Base config for the override scenario, rooted at `/q`. -/
def c3qBase : JSVal :=
  jobj [("rules", jobj []), ("filePath", jstr ""), ("baseDirectory", jstr "/q")]

/-- A local config with one override block. -/
def c3qCfg : JSVal :=
  jobj [("filePath", jstr "/q/.eslintrc"), ("baseDirectory", jstr "/q"),
    ("rules", jobj [("r", jstr "error")]),
    ("overrides", jarr [jobj [("files", jstr "*.js"), ("rules", jobj [("o", jstr "warn")])]])]

/-- Collaborators that discover `/q/.eslintrc` and match every glob. -/
def c3qExternal : External where
  findFiles := fun _ => ["/q/.eslintrc"]
  readConfigFile := fun p => if p = "/q/.eslintrc" then some c3qCfg else none
  filenameForDirectory := fun _ => none
  environments := fun _ => none
  minimatch := fun _ _ => true
  personalConfigDir := none

/-- The resolver of the override scenario. -/
def c3qResolver : Config where
  options := ⟨JSVal.undef, JSVal.undef⟩
  parser := JSVal.undef
  baseConfig := c3qBase
  useEslintrc := true
  useSpecificConfig := none
  cliConfig := jobj []
  cwd := "/q"

/-- What `resolve("/q/src/a.js")` returns in the override scenario. -/
def c3qFinal : JSVal :=
  jobj [("rules", jobj [("r", jstr "error"), ("o", jstr "warn")]),
    ("overrides", jarr [jobj [("files", jstr "*.js"), ("rules", jobj [("o", jstr "warn")])]]),
    ("parser", JSVal.undef)]

/-- Counterexample to C3: (a) on the vector consisting only of the base
source token, the final config returned by `getConfig` still has the
`filePath` (value `""`) and `baseDirectory` keys — the fold deletes them only
when `filePath` is truthy, and the base's is `""`; (b) for a source that
contributes an override block, the final config still has an `overrides`
key — the fold never deletes it. -/
theorem c3_counterexample_keys_remain :
    ((c3Resolver.getConfig c3External none (Config.initialCache c3Base)).1
        = Except.ok (jobj [("rules", jobj []), ("filePath", jstr ""),
            ("baseDirectory", jstr "/cwd"), ("parser", JSVal.undef)]) ∧
      (jobj [("rules", jobj []), ("filePath", jstr ""),
        ("baseDirectory", jstr "/cwd"), ("parser", JSVal.undef)] : JSVal).hasKey "baseDirectory"
          = true) ∧
    ((c3qResolver.getConfig c3qExternal (some "/q/src/a.js") (Config.initialCache c3qBase)).1
        = Except.ok c3qFinal ∧
      c3qFinal.hasKey "overrides" = true ∧
      c3qFinal.hasKey "filePath" = false ∧
      c3qFinal.hasKey "baseDirectory" = false) :=
  ⟨⟨rfl, rfl⟩, rfl, rfl, rfl, rfl⟩

/-- Claim C3 (amended): the config produced by `getConfigFromVector` never
carries a *truthy* `filePath` — each fold step deletes `filePath` (and
`baseDirectory` with it) whenever it is truthy — provided every partial-merge
cache entry already has a non-truthy `filePath` (the constructor initializes
the cache with the base config, whose `filePath` is `""`).  `filePath`/
`baseDirectory` keys from the base source (falsy `""`) and `overrides` keys
contributed by sources can remain, as the counterexample shows. -/
theorem c3_no_truthy_filePath (cache : ConfigCache) (vector : List VecTok)
    (hinv : ∀ k v, alookup cache.mergedVectorCache k = some v →
      (v.propGet "filePath").truthy = false) :
    (((ConfigOps.getConfigFromVector cache vector).1).propGet "filePath").truthy = false := by
  unfold ConfigOps.getConfigFromVector
  cases hp : ConfigOps.probeLoop cache vector vector.length with
  | none =>
      dsimp only
      exact foldVector_filePath_not_truthy vector vector _ _ cache rfl
  | some ck =>
      obtain ⟨c0, k⟩ := ck
      have hspec := probeLoop_spec cache vector vector.length c0 k hp
      have hc0 : (c0.propGet "filePath").truthy = false := hinv _ _ hspec.2.1
      dsimp only
      by_cases hk : k + 1 = vector.length
      · rw [if_pos hk]; exact hc0
      · rw [if_neg hk]
        exact foldVector_filePath_not_truthy vector _ _ _ cache hc0

/-- Witness for C3 (amended) on a fresh cache and the base-only vector. -/
theorem c3_no_truthy_filePath_witness :
    (((ConfigOps.getConfigFromVector ConfigCache.init [VecTok.vstr ""]).1).propGet
        "filePath").truthy = false :=
  c3_no_truthy_filePath ConfigCache.init [VecTok.vstr ""] (by
    intro k v h
    simp [ConfigCache.init, alookup] at h)

/-! Claim C5: the fatal no-configuration-found condition, characterized
exactly. -/

/-- Claim C5: `getLocalConfigHierarchy` raises the no-configuration-found
error exactly when the walk collected no local config, no hierarchy-cache hit
occurred, no CLI-specified config file is in use, no personal config exists,
the options supply no non-empty rules mapping, and no base config was
supplied; if even one of these holds — one CLI rule, a base config, a
personal config, a cache hit, a collected config, or a CLI config file — the
error is suppressed and the call returns a hierarchy. -/
theorem c5_no_config_found_iff (r : Config) (ext : External) (directory : String)
    (cache : ConfigCache) :
    (∃ e, (r.getLocalConfigHierarchy ext directory cache).1 = Except.error e) ↔
      ((Config.walkLocalConfigFiles ext (ext.filenameForDirectory r.cwd)
          (ext.findFiles directory) none [] [] cache).configs = [] ∧
        (Config.walkLocalConfigFiles ext (ext.filenameForDirectory r.cwd)
          (ext.findFiles directory) none [] [] cache).cacheHit = none ∧
        r.useSpecificConfig = none ∧
        (Config.getPersonalConfig ext
          (Config.walkLocalConfigFiles ext (ext.filenameForDirectory r.cwd)
            (ext.findFiles directory) none [] [] cache).cache).1 = none ∧
        hasRules r.options = false ∧
        r.options.baseConfig.truthy = false) := by
  unfold Config.getLocalConfigHierarchy
  set w := Config.walkLocalConfigFiles ext (ext.filenameForDirectory r.cwd)
    (ext.findFiles directory) none [] [] cache with hw
  by_cases hcond : (w.configs.isEmpty && w.cacheHit.isNone && r.useSpecificConfig.isNone) = true
  · rw [if_pos hcond]
    simp only [Bool.and_eq_true, List.isEmpty_iff, Option.isNone_iff_eq_none] at hcond
    obtain ⟨⟨hconfigs, hhit⟩, huse⟩ := hcond
    rcases hpc : Config.getPersonalConfig ext w.cache with ⟨po, cache2⟩
    cases po with
    | some personalConfig =>
        dsimp only
        simp only [Config.finishLocalHierarchy]
        constructor
        · rintro ⟨e, he⟩
          exact Except.noConfusion he
        · rintro ⟨_, _, _, hnone, _, _⟩
          exact Option.noConfusion hnone
    | none =>
        dsimp only
        by_cases hfb : (!hasRules r.options && !r.options.baseConfig.truthy) = true
        · rw [if_pos hfb]
          simp only [Bool.and_eq_true, Bool.not_eq_true'] at hfb
          constructor
          · intro _
            exact ⟨hconfigs, hhit, huse, rfl, hfb.1, hfb.2⟩
          · intro _
            exact ⟨⟨directory, ext.findFiles directory⟩, rfl⟩
        · rw [if_neg hfb]
          simp only [Bool.and_eq_true, Bool.not_eq_true'] at hfb
          simp only [Config.finishLocalHierarchy]
          constructor
          · rintro ⟨e, he⟩
            exact Except.noConfusion he
          · rintro ⟨_, _, _, _, hrules, hbase⟩
            exact (hfb ⟨hrules, hbase⟩).elim
  · rw [if_neg hcond]
    simp only [Config.finishLocalHierarchy]
    constructor
    · rintro ⟨e, he⟩
      exact Except.noConfusion he
    · rintro ⟨hconfigs, hhit, huse, _, _, _⟩
      exact (hcond (by
        simp only [Bool.and_eq_true, List.isEmpty_iff, Option.isNone_iff_eq_none]
        exact ⟨⟨hconfigs, hhit⟩, huse⟩)).elim

/-! Claim C4: root truncation.  On a fresh walk the `root: true` boundary is
honored (the `pathIsInside` skip), but the hierarchy-cache probe runs BEFORE
the root check, so a walk that reaches a directory cached by an earlier call
breaks out and prepends the cached chain unconditionally — including configs
from directories above the `root: true` boundary. -/

/-- The config at `/a` (no root flag). -/
def c4CfgA : JSVal :=
  jobj [("filePath", jstr "/a/.eslintrc"), ("rules", jobj [("ra", jstr "error")])]

/-- The config at `/a/b`, carrying `root: true`. -/
def c4CfgB : JSVal :=
  jobj [("root", jbool true), ("filePath", jstr "/a/b/.eslintrc")]

/-- The constructor-tagged base config for the C4 run. -/
def c4Base : JSVal :=
  jobj [("rules", jobj []), ("filePath", jstr ""), ("baseDirectory", jstr "/a")]

/-- Collaborators: config files exist at `/a/.eslintrc` and
`/a/b/.eslintrc`; the finder walks nearest-first. -/
def c4External : External where
  findFiles := fun d =>
    if d = "/a" then ["/a/.eslintrc"]
    else if d = "/a/b" then ["/a/b/.eslintrc", "/a/.eslintrc"]
    else []
  readConfigFile := fun p =>
    if p = "/a/.eslintrc" then some c4CfgA
    else if p = "/a/b/.eslintrc" then some c4CfgB
    else none
  filenameForDirectory := fun _ => none
  environments := fun _ => none
  minimatch := fun _ _ => false
  personalConfigDir := none

/-- The resolver of the C4 run (CLI rules supplied so the fatal path is
irrelevant here). -/
def c4Resolver : Config where
  options := ⟨jobj [("x", jnum 2)], JSVal.undef⟩
  parser := JSVal.undef
  baseConfig := c4Base
  useEslintrc := true
  useSpecificConfig := none
  cliConfig := jobj [("rules", jobj [("x", jnum 2)])]
  cwd := "/a"

/-- Claim C4 evaluated at the failing input: on a fresh cache the hierarchy
for `/a/b` is correctly truncated to `[c4CfgB]` (the config above the
`root: true` directory is excluded), but after an earlier call walked `/a`
and populated the hierarchy cache, the same call returns
`[c4CfgA, c4CfgB]` — the config from `/a`, a directory NOT inside the root
boundary `/a/b`, leaks in through the cache hit that short-circuits the walk
before the root check. -/
theorem c4_root_truncation_cache_leak :
    ((c4Resolver.getLocalConfigHierarchy c4External "/a/b" (Config.initialCache c4Base)).1
        = Except.ok [c4CfgB]) ∧
    ((c4Resolver.getLocalConfigHierarchy c4External "/a/b"
        (c4Resolver.getLocalConfigHierarchy c4External "/a" (Config.initialCache c4Base)).2).1
        = Except.ok [c4CfgA, c4CfgB]) ∧
    c4CfgB.propGet "root" = jbool true ∧
    pathIsInside (dirname "/a/.eslintrc") "/a/b" = false :=
  ⟨rfl, rfl, rfl, rfl⟩

/-! Claim C2: cache coherency of `getConfig` (resolve).  Within a run, the
final-merge cache is written at most once per key — `setMergedConfig` runs
only on a probe miss, at the probed key — so every entry, once written, is
permanent, and any two calls whose vectors are equal return the one config
stored under that vector's key.  None of the other phases touches the
final-merge table; the lemmas below establish that frame. -/

theorem loadCached_mergedCache (ext : External) (p : String) (cache : ConfigCache) :
    ((loadCached ext p cache).2).mergedCache = cache.mergedCache := by
  unfold loadCached
  cases cache.getConfig p
  · dsimp only
    cases ext.readConfigFile p
    · rfl
    · rfl
  · rfl

theorem getPersonalConfig_mergedCache (ext : External) (cache : ConfigCache) :
    ((Config.getPersonalConfig ext cache).2).mergedCache = cache.mergedCache := by
  unfold Config.getPersonalConfig
  cases ext.personalConfigDir with
  | none => rfl
  | some d =>
      dsimp only
      cases ext.filenameForDirectory d with
      | none => rfl
      | some fn =>
          dsimp only
          exact loadCached_mergedCache ext fn cache

theorem walkLocalConfigFiles_mergedCache (ext : External) (pcp : Option String) :
    ∀ (files : List String) (rootPath : Option String) (configs : List JSVal)
      (searched : List String) (cache : ConfigCache),
      ((Config.walkLocalConfigFiles ext pcp files rootPath configs searched cache).cache).mergedCache
        = cache.mergedCache := by
  intro files
  induction files with
  | nil => intro _ _ _ _; rfl
  | cons f rest ih =>
      intro rootPath configs searched cache
      simp only [Config.walkLocalConfigFiles]
      cases cache.getHierarchyLocalConfigs (dirname f) with
      | some hit => rfl
      | none =>
          dsimp only
          split
          · exact ih _ _ _ _
          · split
            · exact ih _ _ _ _
            · rcases hl : loadCached ext f cache with ⟨lc, cache2⟩
              have hl2 : cache2.mergedCache = cache.mergedCache := by
                have h0 := loadCached_mergedCache ext f cache
                rw [hl] at h0
                exact h0
              cases lc with
              | none => dsimp only; rw [ih _ _ _ _]; exact hl2
              | some localConfig => dsimp only; rw [ih _ _ _ _]; exact hl2

theorem finishLocalHierarchy_mergedCache (configs : List JSVal) (searched : List String)
    (cacheHit : Option (List JSVal)) (cache : ConfigCache) :
    ((Config.finishLocalHierarchy configs searched cacheHit cache).2).mergedCache
      = cache.mergedCache := rfl

theorem getLocalConfigHierarchy_mergedCache (r : Config) (ext : External) (directory : String)
    (cache : ConfigCache) :
    ((r.getLocalConfigHierarchy ext directory cache).2).mergedCache = cache.mergedCache := by
  unfold Config.getLocalConfigHierarchy
  set w := Config.walkLocalConfigFiles ext (ext.filenameForDirectory r.cwd)
    (ext.findFiles directory) none [] [] cache with hw
  have hwm : w.cache.mergedCache = cache.mergedCache :=
    walkLocalConfigFiles_mergedCache _ _ _ _ _ _ _
  by_cases hcond : (w.configs.isEmpty && w.cacheHit.isNone && r.useSpecificConfig.isNone) = true
  · rw [if_pos hcond]
    rcases hpc : Config.getPersonalConfig ext w.cache with ⟨po, cache2⟩
    have hpm : cache2.mergedCache = w.cache.mergedCache := by
      have h0 := getPersonalConfig_mergedCache ext w.cache
      rw [hpc] at h0
      exact h0
    cases po with
    | some personalConfig =>
        dsimp only
        rw [finishLocalHierarchy_mergedCache, hpm, hwm]
    | none =>
        dsimp only
        by_cases hfb : (!hasRules r.options && !r.options.baseConfig.truthy) = true
        · rw [if_pos hfb]
          dsimp only
          rw [hpm, hwm]
        · rw [if_neg hfb]
          rw [finishLocalHierarchy_mergedCache, hpm, hwm]
  · rw [if_neg hcond]
    rw [finishLocalHierarchy_mergedCache, hwm]

theorem getConfigHierarchy_mergedCache (r : Config) (ext : External) (directory : String)
    (cache : ConfigCache) :
    ((r.getConfigHierarchy ext directory cache).2).mergedCache = cache.mergedCache := by
  unfold Config.getConfigHierarchy
  split
  · rcases hl : r.getLocalConfigHierarchy ext directory cache with ⟨res, cache2⟩
    have h2 : cache2.mergedCache = cache.mergedCache := by
      have h0 := getLocalConfigHierarchy_mergedCache r ext directory cache
      rw [hl] at h0
      exact h0
    cases res with
    | ok locals => dsimp only; exact h2
    | error e => dsimp only; exact h2
  · rfl

theorem getConfigVector_mergedCache (r : Config) (ext : External) (fp : Option String)
    (cache : ConfigCache) :
    ((r.getConfigVector ext fp cache).2).mergedCache = cache.mergedCache := by
  unfold Config.getConfigVector
  dsimp only
  split
  next e cache2 heq =>
    exact Eq.trans (congrArg (fun p => (p.2).mergedCache) heq).symm
      (getConfigHierarchy_mergedCache r ext _ cache)
  next hierarchy cache2 heq =>
    exact Eq.trans (congrArg (fun p => (p.2).mergedCache) heq).symm
      (getConfigHierarchy_mergedCache r ext _ cache)

theorem foldVector_mergedCache (full : List VecTok) :
    ∀ (rest : List VecTok) (config subConfigs : JSVal) (cache : ConfigCache),
      ((ConfigOps.foldVector full rest config subConfigs cache).2).mergedCache
        = cache.mergedCache := by
  intro rest
  induction rest with
  | nil => intro _ _ _; rfl
  | cons tok rest ih =>
      intro config sub cache
      simp only [ConfigOps.foldVector]
      rw [ih]
      rfl

theorem getConfigFromVector_mergedCache (cache : ConfigCache) (v : List VecTok) :
    ((ConfigOps.getConfigFromVector cache v).2).mergedCache = cache.mergedCache := by
  unfold ConfigOps.getConfigFromVector
  cases hp : ConfigOps.probeLoop cache v v.length with
  | none => exact foldVector_mergedCache v v _ _ cache
  | some ck =>
      obtain ⟨c0, k⟩ := ck
      dsimp only
      split
      · rfl
      · exact foldVector_mergedCache v _ _ _ cache

/-- The miss path of `getConfig`: it returns `ok` of a truthy config (every
step 1–4 result is a merge output or preserved truthy value) and stores
exactly that config in the final-merge cache under the vector's key. -/
theorem computeConfig_eq (r : Config) (ext : External) (v : List VecTok) (cache : ConfigCache) :
    ∃ c, r.computeConfig ext v cache
        = (Except.ok c, ((ConfigOps.getConfigFromVector cache v).2).setMergedConfig v c)
      ∧ c.truthy = true := by
  unfold Config.computeConfig
  dsimp only
  refine ⟨_, rfl, ?_⟩
  have happly : ∀ (x : JSVal), x.truthy = true →
      (ConfigOps.applyEnvironments ext.environments x).truthy = true := by
    intro x hx
    unfold ConfigOps.applyEnvironments
    split
    · exact merge_truthy _ _ _ _
    · exact hx
  split <;> split <;>
    first
      | exact happly _ (merge_truthy _ _ _ _)
      | exact merge_truthy _ _ _ _

/-- What a `getConfig` call with a successfully built vector `v` does to the
final-merge cache: it returns `ok` of a truthy config; afterwards the entry
under `hash v` is exactly the returned config; every pre-existing truthy
entry survives unchanged (a write happens only on a probe miss, at the
probed key); and if a truthy entry already sat under `hash v`, that entry is
what the call returns. -/
theorem getConfig_spec (r : Config) (ext : External) (fp : Option String) (cache : ConfigCache)
    (v : List VecTok) (hv : (r.getConfigVector ext fp cache).1 = Except.ok v) :
    ∃ c, (r.getConfig ext fp cache).1 = Except.ok c ∧ c.truthy = true ∧
      alookup ((r.getConfig ext fp cache).2).mergedCache (hashVector v) = some c ∧
      (∀ k c0, alookup cache.mergedCache k = some c0 → c0.truthy = true →
        alookup ((r.getConfig ext fp cache).2).mergedCache k = some c0) ∧
      (∀ c0, alookup cache.mergedCache (hashVector v) = some c0 → c0.truthy = true →
        (r.getConfig ext fp cache).1 = Except.ok c0) := by
  unfold Config.getConfig
  rcases hvc : r.getConfigVector ext fp cache with ⟨res, cache2⟩
  have hres : res = Except.ok v := by rw [hvc] at hv; exact hv
  subst hres
  dsimp only
  have hc2 : cache2.mergedCache = cache.mergedCache := by
    have h0 := getConfigVector_mergedCache r ext fp cache
    rw [hvc] at h0
    exact h0
  cases hprobe : cache2.getMergedConfig v with
  | some c0 =>
      dsimp only
      by_cases ht : c0.truthy = true
      · rw [if_pos ht]
        refine ⟨c0, rfl, ht, hprobe, ?_, ?_⟩
        · intro k c1 h1 _
          rw [hc2]
          exact h1
        · intro c1 h1 _
          have h2 : some c0 = some c1 := by
            rw [← hprobe]
            show alookup cache2.mergedCache (hashVector v) = some c1
            rw [hc2]
            exact h1
          injection h2 with h2
          rw [h2]
      · rw [if_neg ht]
        obtain ⟨c, hcc, hctr⟩ := computeConfig_eq r ext v cache2
        rw [hcc]
        have hfold : ((ConfigOps.getConfigFromVector cache2 v).2).mergedCache
            = cache.mergedCache := by
          rw [getConfigFromVector_mergedCache, hc2]
        refine ⟨c, rfl, hctr, ?_, ?_, ?_⟩
        · show alookup (aset _ (hashVector v) c) (hashVector v) = some c
          exact alookup_aset_self _ _ _
        · intro k c1 h1 ht1
          by_cases hk : k = hashVector v
          · exfalso
            rw [hk] at h1
            have h2 : some c0 = some c1 := by
              rw [← hprobe]
              show alookup cache2.mergedCache (hashVector v) = some c1
              rw [hc2]
              exact h1
            injection h2 with h2
            rw [h2] at ht
            exact ht ht1
          · show alookup (aset _ (hashVector v) c) k = some c1
            rw [alookup_aset_ne _ _ _ _ hk, hfold]
            exact h1
        · intro c1 h1 ht1
          exfalso
          have h2 : some c0 = some c1 := by
            rw [← hprobe]
            show alookup cache2.mergedCache (hashVector v) = some c1
            rw [hc2]
            exact h1
          injection h2 with h2
          rw [h2] at ht
          exact ht ht1
  | none =>
      dsimp only
      obtain ⟨c, hcc, hctr⟩ := computeConfig_eq r ext v cache2
      rw [hcc]
      have hfold : ((ConfigOps.getConfigFromVector cache2 v).2).mergedCache
          = cache.mergedCache := by
        rw [getConfigFromVector_mergedCache, hc2]
      refine ⟨c, rfl, hctr, ?_, ?_, ?_⟩
      · show alookup (aset _ (hashVector v) c) (hashVector v) = some c
        exact alookup_aset_self _ _ _
      · intro k c1 h1 _
        by_cases hk : k = hashVector v
        · exfalso
          rw [hk] at h1
          have h2 : alookup cache2.mergedCache (hashVector v) = some c1 := by
            rw [hc2]; exact h1
          rw [show alookup cache2.mergedCache (hashVector v) = cache2.getMergedConfig v from rfl]
            at h2
          rw [hprobe] at h2
          exact Option.noConfusion h2
        · show alookup (aset _ (hashVector v) c) k = some c1
          rw [alookup_aset_ne _ _ _ _ hk, hfold]
          exact h1
      · intro c1 h1 _
        exfalso
        have h2 : alookup cache2.mergedCache (hashVector v) = some c1 := by rw [hc2]; exact h1
        rw [show alookup cache2.mergedCache (hashVector v) = cache2.getMergedConfig v from rfl]
          at h2
        rw [hprobe] at h2
        exact Option.noConfusion h2

/-- A call whose vector build throws propagates the error without touching
the final-merge cache. -/
theorem getConfig_of_vector_error (r : Config) (ext : External) (fp : Option String)
    (cache : ConfigCache) (e : NoConfigError)
    (hv : (r.getConfigVector ext fp cache).1 = Except.error e) :
    r.getConfig ext fp cache = (Except.error e, (r.getConfigVector ext fp cache).2) := by
  unfold Config.getConfig
  rcases hvc : r.getConfigVector ext fp cache with ⟨res, cache2⟩
  have hres : res = Except.error e := by rw [hvc] at hv; exact hv
  subst hres
  rfl

/-- Any single `getConfig` call preserves every truthy final-merge cache
entry (entries are written only on a probe miss, at the probed key). -/
theorem getConfig_preserves_entry (r : Config) (ext : External) (fp : Option String)
    (cache : ConfigCache) (k : String) (c0 : JSVal)
    (h0 : alookup cache.mergedCache k = some c0) (ht : c0.truthy = true) :
    alookup ((r.getConfig ext fp cache).2).mergedCache k = some c0 := by
  cases hres : (r.getConfigVector ext fp cache).1 with
  | error e =>
      rw [getConfig_of_vector_error r ext fp cache e hres]
      have h2 := getConfigVector_mergedCache r ext fp cache
      rw [show ((Except.error e : Except NoConfigError JSVal),
          (r.getConfigVector ext fp cache).2).2 = (r.getConfigVector ext fp cache).2 from rfl]
      rw [h2]
      exact h0
  | ok v =>
      obtain ⟨c, _, _, _, hpers, _⟩ := getConfig_spec r ext fp cache v hres
      exact hpers k c0 h0 ht

/-- Unfolding one call of a run. -/
theorem runGetConfigs_cons (r : Config) (ext : External) (fp : Option String)
    (rest : List (Option String)) (cache : ConfigCache) :
    Config.runGetConfigs r ext (fp :: rest) cache
      = ((r.getConfig ext fp cache).1
            :: (Config.runGetConfigs r ext rest (r.getConfig ext fp cache).2).1,
          (Config.runGetConfigs r ext rest (r.getConfig ext fp cache).2).2) := rfl

/-- The result at position `n` of a run is the call on the `n`-th path in
the state reached by the first `n` calls. -/
theorem runGetConfigs_get (r : Config) (ext : External) :
    ∀ (fps : List (Option String)) (cache : ConfigCache) (n : Nat) (fp : Option String),
      fps.get? n = some fp →
      (Config.runGetConfigs r ext fps cache).1.get? n
        = some (r.getConfig ext fp ((Config.runGetConfigs r ext (fps.take n) cache).2)).1 := by
  intro fps
  induction fps with
  | nil => intro cache n fp h; simp at h
  | cons f rest ih =>
      intro cache n fp h
      match n with
      | 0 =>
          simp only [List.get?] at h
          injection h with h
          subst h
          rfl
      | n + 1 =>
          simp only [List.get?] at h
          rw [runGetConfigs_cons]
          show (Config.runGetConfigs r ext rest (r.getConfig ext f cache).2).1.get? n = _
          rw [ih _ n fp h]
          rfl

/-- A whole run preserves every truthy final-merge cache entry. -/
theorem runGetConfigs_preserves_entry (r : Config) (ext : External) :
    ∀ (fps : List (Option String)) (cache : ConfigCache) (k : String) (c0 : JSVal),
      alookup cache.mergedCache k = some c0 → c0.truthy = true →
      alookup ((Config.runGetConfigs r ext fps cache).2).mergedCache k = some c0 := by
  intro fps
  induction fps with
  | nil => intro cache k c0 h0 _; exact h0
  | cons f rest ih =>
      intro cache k c0 h0 ht
      rw [runGetConfigs_cons]
      exact ih _ k c0 (getConfig_preserves_entry r ext f cache k c0 h0 ht) ht

/-- Splitting a run at an append point. -/
theorem runGetConfigs_append (r : Config) (ext : External) :
    ∀ (l1 l2 : List (Option String)) (cache : ConfigCache),
      Config.runGetConfigs r ext (l1 ++ l2) cache
        = ((Config.runGetConfigs r ext l1 cache).1
              ++ (Config.runGetConfigs r ext l2 (Config.runGetConfigs r ext l1 cache).2).1,
            (Config.runGetConfigs r ext l2 (Config.runGetConfigs r ext l1 cache).2).2) := by
  intro l1
  induction l1 with
  | nil => intro l2 cache; rfl
  | cons f rest ih =>
      intro l2 cache
      show Config.runGetConfigs r ext (f :: (rest ++ l2)) cache = _
      rw [runGetConfigs_cons, ih, runGetConfigs_cons]
      rfl

/-- Claim C2: within one run (one resolver instance, one process-wide cache),
any two `getConfig` (resolve) calls whose config vectors are the same token
sequence return the identical merged config value — in particular two
successive calls yielding the same vector do.  The final-merge cache is
write-once per key, so the first call on a vector fixes the config every
later same-vector call returns, regardless of the calls in between. -/
theorem c2_same_vector_identical_config (r : Config) (ext : External) (cache0 : ConfigCache)
    (fps : List (Option String)) (i j : Nat) (fpi fpj : Option String) (v : List VecTok)
    (hij : i < j)
    (hi : fps.get? i = some fpi) (hj : fps.get? j = some fpj)
    (hvi : (r.getConfigVector ext fpi
        ((Config.runGetConfigs r ext (fps.take i) cache0).2)).1 = Except.ok v)
    (hvj : (r.getConfigVector ext fpj
        ((Config.runGetConfigs r ext (fps.take j) cache0).2)).1 = Except.ok v) :
    ∃ c, (Config.runGetConfigs r ext fps cache0).1.get? i = some (Except.ok c) ∧
      (Config.runGetConfigs r ext fps cache0).1.get? j = some (Except.ok c) := by
  obtain ⟨c, hok, htr, hentry, _, _⟩ :=
    getConfig_spec r ext fpi ((Config.runGetConfigs r ext (fps.take i) cache0).2) v hvi
  refine ⟨c, ?_, ?_⟩
  · rw [runGetConfigs_get r ext fps cache0 i fpi hi, hok]
  · have h1 : fps.take (i + 1) = fps.take i ++ [fpi] := by
      rw [List.take_succ, ← List.get?_eq_getElem?, hi]
      rfl
    have hstep : (Config.runGetConfigs r ext (fps.take (i + 1)) cache0).2
        = (r.getConfig ext fpi ((Config.runGetConfigs r ext (fps.take i) cache0).2)).2 := by
      rw [h1, runGetConfigs_append]
      rfl
    have hentry1 : alookup ((Config.runGetConfigs r ext (fps.take (i + 1)) cache0).2).mergedCache
        (hashVector v) = some c := by
      rw [hstep]
      exact hentry
    have hmin : min (i + 1) j = i + 1 := by omega
    have hsplit : fps.take j = fps.take (i + 1) ++ (fps.take j).drop (i + 1) := by
      have h2 := List.take_append_drop (i + 1) (fps.take j)
      rw [List.take_take, hmin] at h2
      exact h2.symm
    have hentryj : alookup ((Config.runGetConfigs r ext (fps.take j) cache0).2).mergedCache
        (hashVector v) = some c := by
      conv_lhs => rw [hsplit, runGetConfigs_append]
      exact runGetConfigs_preserves_entry r ext _ _ _ _ hentry1 htr
    obtain ⟨cj, hokj, _, _, _, hretr⟩ :=
      getConfig_spec r ext fpj ((Config.runGetConfigs r ext (fps.take j) cache0).2) v hvj
    rw [runGetConfigs_get r ext fps cache0 j fpj hj, hretr c hentryj htr]

/-- The base config of the C2 witness run. -/
def c2Base : JSVal :=
  jobj [("rules", jobj []), ("filePath", jstr ""), ("baseDirectory", jstr "/w")]

/-- Collaborators that find nothing on disk. -/
def c2External : External where
  findFiles := fun _ => []
  readConfigFile := fun _ => none
  filenameForDirectory := fun _ => none
  environments := fun _ => none
  minimatch := fun _ _ => true
  personalConfigDir := none

/-- A resolver serving only its base config. -/
def c2Resolver : Config where
  options := ⟨JSVal.undef, JSVal.undef⟩
  parser := JSVal.undef
  baseConfig := c2Base
  useEslintrc := false
  useSpecificConfig := none
  cliConfig := jobj []
  cwd := "/w"

/-- Witness for C2: two successive `resolve(undefined)` calls share the
vector `[""]` and return the identical config. -/
theorem c2_same_vector_identical_config_witness :
    ∃ c, (Config.runGetConfigs c2Resolver c2External [none, none]
          (Config.initialCache c2Base)).1.get? 0 = some (Except.ok c) ∧
      (Config.runGetConfigs c2Resolver c2External [none, none]
          (Config.initialCache c2Base)).1.get? 1 = some (Except.ok c) :=
  c2_same_vector_identical_config c2Resolver c2External (Config.initialCache c2Base)
    [none, none] 0 1 none none [VecTok.vstr ""] (by decide) rfl rfl rfl rfl
